import Mathlib

/-!
Verification development for the CircuitSim repository.

The definitions below are a shallow embedding of the JavaScript sources:
  - src/js/main.js                      (class Component)
  - src/js/components/Battery.js        (classes Battery, Wire)
  - src/js/components/LED.js            (classes LED, Ground)
  - src/js/CircuitSimulator.js          (classes CircuitSimulator, Resistor)
  - src/js/PathFinder.js                (class PathFinder)
  - src/js/VisualEffects.js             (CircuitCanvas.toJSON / fromJSON)
  - src/unnamed/part_000..part_004      (RaspberryPi, Switch, Diode,
                                         RobotWiringValidator, UIManager)

Modelling conventions:
  - JavaScript numbers are modelled by rationals; component and wire object
    identity is modelled by the numeric id field (the sources generate a
    unique id per object in the Component and Wire constructors);
  - mutation of the shared component/wire collections becomes explicit
    state passing over SimState;
  - canvas-only presentation state (selected, hovered, colours, particle
    animation, curve caches) is omitted: it is never read by the
    simulator, path finder, serializer or validator;
  - the iterative DFS of PathFinder.findPathsDFS uses an explicit stack in
    the source; here the same stack machine is driven by a fuel parameter
    that is chosen large enough to exhaust every reachable stack (proved
    below).  The source's `visited` set is written but never read, so it
    is not carried.
-/

namespace CircuitSim

/- The Batteries rational arithmetic is marked irreducible for the
elaborator; restore reducibility so that concrete circuit computations can
be evaluated by decide (the kernel unfolds these definitions either
way). -/
attribute [local semireducible] Rat.add Rat.mul Rat.inv Rat.sub

/-- Component kinds: the discriminant strings passed to the Component base
constructor by the ten concrete classes. -/
inductive CKind where
  | battery | resistor | led | diode | switch | ground
  | batteryPackAA | raspberryPi | motorController | dcMotor
  deriving DecidableEq

/-- A named terminal with its local-frame offset (Component.terminals). -/
structure Terminal where
  tid : String
  tx : Int
  ty : Int
  deriving DecidableEq

/-- A circuit component: the union of the fields of the Component base
class and of the ten concrete subclasses.  Fields that a given kind's
constructor does not set keep the listed defaults (they are never read for
that kind, mirroring JavaScript's undefined-field semantics). -/
structure Component where
  id : Nat
  ctype : CKind
  x : Int := 0
  y : Int := 0
  width : Int := 60
  height : Int := 60
  rotation : Int := 0
  terminals : List Terminal := []
  voltage : ℚ := 0
  current : ℚ := 0
  resistance : ℚ := 0
  damaged : Bool := false
  temperature : ℚ := 0
  -- Battery
  voltageIndex : Nat := 0
  -- Resistor
  resistanceIndex : Nat := 0
  maxPower : ℚ := 0
  burnoutPower : ℚ := 0
  -- LED
  colorIndex : Nat := 0
  ledColor : String := ""
  forwardVoltage : ℚ := 0
  maxCurrent : ℚ := 0
  burnoutCurrent : ℚ := 0
  brightness : ℚ := 0
  isOn : Bool := false
  -- Diode
  forwardResistance : ℚ := 0
  reverseResistance : ℚ := 0
  isConducting : Bool := false
  voltageDrop : ℚ := 0
  -- Switch
  closed : Bool := false
  -- RaspberryPi
  poweredOn : Bool := false
  gpioA : Bool := false
  gpioB : Bool := false
  -- MotorController
  powered : Bool := false
  signalA : Bool := false
  signalB : Bool := false
  -- DCMotor
  spinning : Bool := false
  spinAngle : ℚ := 0
  -- RobotWiringValidator provenance marker (led._gpioDriven)
  gpioDriven : Bool := false
  deriving DecidableEq

/-- A wire (class Wire): endpoints are (component id, terminal name) pairs;
the source stores object references, modelled here by the component ids. -/
structure Wire where
  id : Nat
  fromId : Nat
  fromTerm : String
  toId : Nat
  toTerm : String
  current : ℚ := 0
  resistance : ℚ := 1/100
  waypoints : List (Int × Int) := []
  deriving DecidableEq

/-- Battery.voltageOptions. -/
def voltageOptions : List ℚ := [3, 6, 9]

/-- Resistor.resistanceOptions (E12-style 12-value set). -/
def resistanceOptions : List ℚ :=
  [10, 47, 100, 220, 330, 470, 1000, 2200, 4700, 10000, 47000, 100000]

/-- LED.colorOptions. -/
def colorOptions : List String := ["red", "green", "blue", "yellow", "white"]

/-- The constructor of each concrete component class (`new Battery()` etc.),
with the object id made explicit. -/
def mkComponent (k : CKind) (i : Nat) (px py : Int) : Component :=
  match k with
  | CKind.battery =>
      { id := i, ctype := CKind.battery, x := px, y := py,
        width := 80, height := 50,
        voltageIndex := 1, voltage := 6,
        terminals := [⟨"positive", 30, 0⟩, ⟨"negative", -30, 0⟩] }
  | CKind.resistor =>
      { id := i, ctype := CKind.resistor, x := px, y := py,
        width := 80, height := 30,
        resistanceIndex := 4, resistance := 330,
        maxPower := 1/4, burnoutPower := 1/2,
        terminals := [⟨"left", -40, 0⟩, ⟨"right", 40, 0⟩] }
  | CKind.led =>
      { id := i, ctype := CKind.led, x := px, y := py,
        width := 50, height := 50,
        colorIndex := 0, ledColor := "red",
        forwardVoltage := 2, maxCurrent := 20/1000,
        burnoutCurrent := 30/1000,
        terminals := [⟨"anode", -25, 0⟩, ⟨"cathode", 20, 0⟩] }
  | CKind.diode =>
      { id := i, ctype := CKind.diode, x := px, y := py,
        width := 50, height := 50,
        forwardVoltage := 7/10, forwardResistance := 1,
        reverseResistance := 1000000000,
        maxCurrent := 100/1000, burnoutCurrent := 150/1000,
        resistance := 1000000000,
        terminals := [⟨"anode", -25, 0⟩, ⟨"cathode", 20, 0⟩] }
  | CKind.switch =>
      { id := i, ctype := CKind.switch, x := px, y := py,
        width := 60, height := 40,
        closed := false, resistance := 1000000000,
        terminals := [⟨"left", -30, 0⟩, ⟨"right", 30, 0⟩] }
  | CKind.ground =>
      { id := i, ctype := CKind.ground, x := px, y := py,
        width := 50, height := 50,
        terminals := [⟨"top", 0, -20⟩] }
  | CKind.batteryPackAA =>
      { id := i, ctype := CKind.batteryPackAA, x := px, y := py,
        width := 90, height := 50, voltage := 6,
        terminals := [⟨"positive", 45, 0⟩, ⟨"negative", -45, 0⟩] }
  | CKind.raspberryPi =>
      { id := i, ctype := CKind.raspberryPi, x := px, y := py,
        width := 100, height := 60,
        terminals := [⟨"5V_IN", -50, -15⟩, ⟨"GND", -50, 15⟩,
                      ⟨"GPIO_A", 50, -15⟩, ⟨"GPIO_B", 50, 15⟩] }
  | CKind.motorController =>
      { id := i, ctype := CKind.motorController, x := px, y := py,
        width := 120, height := 80,
        terminals := [⟨"VCC", -40, -40⟩, ⟨"GND", 40, -40⟩,
                      ⟨"IN_A", -60, -15⟩, ⟨"IN_B", -60, 15⟩,
                      ⟨"OUT_A1", 60, -30⟩, ⟨"OUT_A2", 60, -10⟩,
                      ⟨"OUT_B1", 60, 10⟩, ⟨"OUT_B2", 60, 30⟩] }
  | CKind.dcMotor =>
      { id := i, ctype := CKind.dcMotor, x := px, y := py,
        width := 60, height := 60,
        terminals := [⟨"terminal_1", -30, 0⟩, ⟨"terminal_2", 30, 0⟩] }

/-- A visual damage-effect request (VisualEffects.createExplosion /
createSparks / createSmoke), recorded as an event. -/
inductive EffKind where
  | explosion | sparks | smoke
  deriving DecidableEq

/-- One emitted damage-effect signal with its arguments. -/
structure Effect where
  kind : EffKind
  ex : Int
  ey : Int
  cnt : Nat := 0
  color : String := ""
  deriving DecidableEq

/-- The simulator's "last path" Ohm's-law snapshot (this.lastPathData). -/
structure PathData where
  voltage : ℚ
  current : ℚ
  resistance : ℚ
  power : ℚ
  deriving DecidableEq

/-- The shared mutable state: the canvas collections, the running flag of
CircuitSimulator, its lastPathData, and the stream of emitted effects. -/
structure SimState where
  components : List Component
  wires : List Wire
  running : Bool := false
  lastPathData : Option PathData := none
  effects : List Effect := []
  deriving DecidableEq

/-- Look a component up by id (dereferencing a JS object reference). -/
def findComp (cs : List Component) (i : Nat) : Option Component :=
  cs.find? (fun c => c.id = i)

/-- Look a wire up by id. -/
def findWire (ws : List Wire) (i : Nat) : Option Wire :=
  ws.find? (fun w => w.id = i)

/-- Replace the component with the given id (JS mutation of the shared
object). -/
def updateComp (cs : List Component) (i : Nat) (f : Component → Component) :
    List Component :=
  cs.map (fun c => if c.id = i then f c else c)

/-- Replace the wire with the given id. -/
def updateWire (ws : List Wire) (i : Nat) (f : Wire → Wire) : List Wire :=
  ws.map (fun w => if w.id = i then f w else w)

/-! ## PathFinder (src/js/PathFinder.js) -/

/-- Wire.connectsTo(component). -/
def connectsTo (w : Wire) (c : Component) : Bool :=
  w.fromId = c.id || w.toId = c.id

/-- Wire.getOtherComponent(component): the object at the opposite end,
dereferenced in the shared collection. -/
def getOtherComponent (cs : List Component) (w : Wire) (c : Component) :
    Option Component :=
  if w.fromId = c.id then findComp cs w.toId
  else if w.toId = c.id then findComp cs w.fromId
  else none

/-- PathFinder.findBatteries. -/
def findBatteries (cs : List Component) : List Component :=
  cs.filter (fun c => c.ctype = CKind.battery)

/-- PathFinder.findGrounds. -/
def findGrounds (cs : List Component) : List Component :=
  cs.filter (fun c => c.ctype = CKind.ground)

/-- PathFinder.getAdjacentComponents: the (other component, wire) pairs of
all wires connected to a component. -/
def getAdjacentComponents (cs : List Component) (ws : List Wire)
    (c : Component) : List (Component × Wire) :=
  (ws.filter (fun w => connectsTo w c)).filterMap
    (fun w => (getOtherComponent cs w c).map (fun o => (o, w)))

/-- A discovered path record: the ordered component sequence and the
ordered wire sequence used (PathFinder.findPathsDFS output). -/
structure PathRec where
  components : List Component
  wires : List Wire
  deriving DecidableEq

/-- PathFinder.checkDiodeDirectionInPath: true when some diode of the path
has, among the path's wires touching it, a wire whose stored `to` endpoint
is the diode's cathode terminal. -/
def checkDiodeDirectionInPath (path : List Component) (wires : List Wire) :
    Bool :=
  path.any (fun c =>
    c.ctype = CKind.diode &&
      ((wires.filter (fun w => w.fromId = c.id || w.toId = c.id)).any
        (fun w => w.toId = c.id && w.toTerm = "cathode")))

/-- One entry of the explicit DFS stack of findPathsDFS. -/
structure Entry where
  comp : Component
  path : List Component
  wires : List Wire
  deriving DecidableEq

/-- Has the entry reached a valid terminus (endpoint with path length
more than one)? -/
def entryComplete (endComponents : List Component) (e : Entry) : Prop :=
  e.comp ∈ endComponents ∧ 1 < e.path.length

instance (endComponents : List Component) (e : Entry) :
    Decidable (entryComplete endComponents e) := by
  unfold entryComplete; infer_instance

/-- The stack entries pushed while exploring the adjacency of an entry's
component, in adjacency order, applying the source's skip rules: wire
already used, revisit without loop closure, open switch, damaged
neighbour, damaged current component. -/
def entryPushes (cs : List Component) (ws : List Wire) (start : Component)
    (e : Entry) : List Entry :=
  (getAdjacentComponents cs ws e.comp).filterMap (fun nw =>
    let nextComp := nw.1
    let wire := nw.2
    if wire ∈ e.wires then none
    else
      let isCompletingLoop := nextComp = start ∧ 1 < e.path.length
      if nextComp ∈ e.path ∧ ¬isCompletingLoop then none
      else if nextComp.ctype = CKind.switch ∧ nextComp.closed = false then
        none
      else if nextComp.damaged then none
      else if e.comp.damaged then none
      else some ⟨nextComp, e.path ++ [nextComp], e.wires ++ [wire]⟩)

/-- The while-loop of findPathsDFS: pop the top entry; a complete entry is
recorded (unless a diode of it is reverse-biased), an incomplete entry is
expanded.  The JS array push/pop pair is LIFO, so the freshly pushed
entries sit reversed in front of the remaining stack.  `fuel` bounds the
number of loop iterations; `findAllPaths` supplies a fuel proved below to
exhaust every reachable stack. -/
def dfsLoop (cs : List Component) (ws : List Wire) (start : Component)
    (endComponents : List Component) :
    Nat → List Entry → List PathRec → List PathRec
  | 0, _, acc => acc
  | _ + 1, [], acc => acc
  | fuel + 1, e :: rest, acc =>
    if entryComplete endComponents e then
      if checkDiodeDirectionInPath e.path e.wires then
        dfsLoop cs ws start endComponents fuel rest acc
      else
        dfsLoop cs ws start endComponents fuel rest (acc ++ [⟨e.path, e.wires⟩])
    else
      dfsLoop cs ws start endComponents fuel
        ((entryPushes cs ws start e).reverse ++ rest) acc

/-- PathFinder.findPathsDFS(start, endComponents). -/
def findPathsDFS (cs : List Component) (ws : List Wire) (start : Component)
    (endComponents : List Component) : List PathRec :=
  dfsLoop cs ws start endComponents ((ws.length + 1) ^ (ws.length + 1))
    [⟨start, [start], []⟩] []

/-- PathFinder.findAllPaths: paths from every battery to any ground or
back to that same battery. -/
def findAllPaths (cs : List Component) (ws : List Wire) : List PathRec :=
  (findBatteries cs).foldl
    (fun allPaths battery =>
      allPaths ++ findPathsDFS cs ws battery (findGrounds cs ++ [battery]))
    []

/-- PathFinder.isCircuitComplete. -/
def isCircuitComplete (cs : List Component) (ws : List Wire) : Bool :=
  0 < (findAllPaths cs ws).length

/-! ## CircuitSimulator (src/js/CircuitSimulator.js) -/

/-- Component.reset() with the overrides of Battery (restores voltage from
the selector), BatteryPackAA, RaspberryPi, MotorController and DCMotor
(these do not touch voltage); all other kinds use the base reset, which
zeroes voltage as well. -/
def componentReset (c : Component) : Component :=
  match c.ctype with
  | CKind.battery =>
      { c with current := 0, damaged := false, temperature := 0,
               voltage := (voltageOptions.get? c.voltageIndex).getD 0 }
  | CKind.batteryPackAA =>
      { c with current := 0, damaged := false, temperature := 0 }
  | CKind.raspberryPi =>
      { c with current := 0, damaged := false, temperature := 0 }
  | CKind.motorController =>
      { c with current := 0, damaged := false, temperature := 0 }
  | CKind.dcMotor =>
      { c with current := 0, damaged := false, temperature := 0 }
  | _ =>
      { c with voltage := 0, current := 0, damaged := false,
               temperature := 0 }

/-- The per-component body of resetAllComponents: reset, then restore the
damage flag that was saved before the reset. -/
def resetComponentKeepDamage (c : Component) : Component :=
  let wasDamaged := c.damaged
  let c' := componentReset c
  if wasDamaged then { c' with damaged := true } else c'

/-- CircuitSimulator.resetAllComponents: reset every component but
preserve its damage flag; zero every wire's current. -/
def resetAllComponents (st : SimState) : SimState :=
  { st with
    components := st.components.map resetComponentKeepDamage,
    wires := st.wires.map (fun w => { w with current := 0 }) }

/-- The damage visual-effect burst for an over-current LED
(createExplosion, createSparks 20, createSmoke '#555'). -/
def ledDamageEffects (px py : Int) : List Effect :=
  [⟨EffKind.explosion, px, py, 0, ""⟩,
   ⟨EffKind.sparks, px, py, 20, ""⟩,
   ⟨EffKind.smoke, px, py, 0, "#555"⟩]

/-- The damage visual-effect burst for an over-current diode. -/
def diodeDamageEffects (px py : Int) : List Effect :=
  [⟨EffKind.explosion, px, py, 0, ""⟩,
   ⟨EffKind.sparks, px, py, 15, ""⟩,
   ⟨EffKind.smoke, px, py, 0, "#666"⟩]

/-- The damage visual-effect burst for an over-power resistor. -/
def resistorDamageEffects (px py : Int) : List Effect :=
  [⟨EffKind.smoke, px, py, 0, "#888"⟩,
   ⟨EffKind.sparks, px, py, 10, ""⟩]

/-- CircuitSimulator.checkComponentLimits over the path's component ids,
reading the live objects: flags damage and emits the effect burst the
first time a limit is crossed. -/
def checkComponentLimits (st : SimState) (pathIds : List Nat) : SimState :=
  pathIds.foldl (fun s i =>
    match findComp s.components i with
    | none => s
    | some c =>
      if c.ctype = CKind.led then
        if c.current > c.burnoutCurrent ∧ c.damaged = false then
          { s with
            components := updateComp s.components i
              (fun c' => { c' with damaged := true, isOn := false }),
            effects := s.effects ++ ledDamageEffects c.x c.y }
        else s
      else if c.ctype = CKind.diode then
        if c.current > c.burnoutCurrent ∧ c.damaged = false then
          { s with
            components := updateComp s.components i
              (fun c' => { c' with damaged := true }),
            effects := s.effects ++ diodeDamageEffects c.x c.y }
        else s
      else if c.ctype = CKind.resistor then
        if c.current * c.current * c.resistance > c.burnoutPower ∧
            c.damaged = false then
          { s with
            components := updateComp s.components i
              (fun c' => { c' with damaged := true }),
            effects := s.effects ++ resistorDamageEffects c.x c.y }
        else s
      else s) st

/-- The voltage-drop assignment step of simulatePath (the body of its
second walk over the path, from index 1 on): the source contributes no
drop, ground is clamped to zero, LEDs and diodes drop their fixed forward
voltage, every other component drops current times resistance. -/
def assignVoltageStep (current : ℚ) (cs : List Component) (i : Nat) :
    List Component :=
  match findComp cs i with
  | none => cs
  | some c =>
    if c.ctype = CKind.battery then cs
    else if c.ctype = CKind.ground then
      updateComp cs i (fun c' => { c' with voltage := 0 })
    else if c.ctype = CKind.led then
      updateComp cs i (fun c' => { c' with voltage := c.forwardVoltage })
    else if c.ctype = CKind.diode then
      updateComp cs i (fun c' => { c' with voltage := c.forwardVoltage })
    else
      updateComp cs i (fun c' => { c' with voltage := current * c.resistance })

/-- CircuitSimulator.simulatePath on a path given by component and wire
ids (the JS object references of the path record): series resistance sum,
Ohm's-law current, current write-back, lastPathData snapshot, voltage
drops, battery current, limit check.  Every Component object carries a
`resistance` field (set in the base constructor), so the JS
`resistance !== undefined` guard is always true. -/
def simulatePath (st : SimState) (pathIds : List Nat) (wireIds : List Nat) :
    SimState :=
  let comps := pathIds.filterMap (findComp st.components)
  match comps.find? (fun c => c.ctype = CKind.battery) with
  | none => st
  | some battery =>
    let r0 : ℚ := comps.foldl (fun r c =>
      if c.ctype = CKind.battery ∨ c.ctype = CKind.ground then r
      else if c.ctype = CKind.led then r + c.forwardVoltage / (20/1000)
      else if c.ctype = CKind.diode then r + c.forwardVoltage / (50/1000)
      else r + c.resistance) 0
    let r1 : ℚ := (wireIds.filterMap (findWire st.wires)).foldl
      (fun r w => r + w.resistance) r0
    let totalResistance : ℚ := if r1 < 1/100 then 1/100 else r1
    let current : ℚ := battery.voltage / totalResistance
    let st :=
      { st with
        components := pathIds.foldl
          (fun cs i => updateComp cs i (fun c => { c with current := current }))
          st.components,
        wires := wireIds.foldl
          (fun ws i => updateWire ws i (fun w => { w with current := current }))
          st.wires,
        lastPathData := some
          ⟨battery.voltage, current, totalResistance,
           battery.voltage * current⟩ }
    let st :=
      { st with
        components := (pathIds.drop 1).foldl (assignVoltageStep current)
          st.components }
    let st :=
      { st with
        components := updateComp st.components battery.id
          (fun c => { c with current := current }) }
    checkComponentLimits st pathIds

/-- CircuitSimulator.simulate: an idle simulator only resets; a running
one resets, re-runs the path finder, and simulates each path in order. -/
def simulate (st : SimState) : SimState :=
  if st.running = false then resetAllComponents st
  else
    let st := resetAllComponents st
    let paths := findAllPaths st.components st.wires
    paths.foldl
      (fun s p =>
        simulatePath s (p.components.map (fun c => c.id))
          (p.wires.map (fun w => w.id)))
      st

/-- CircuitSimulator.start. -/
def simStart (st : SimState) : SimState := { st with running := true }

/-- CircuitSimulator.stop. -/
def simStop (st : SimState) : SimState :=
  resetAllComponents { st with running := false }

/-- The stop branch of UIManager.toggleSimulation (src/unnamed/part_004):
simulator.stop() followed by force-clearing every component's damage
flag. -/
def stopSequence (st : SimState) : SimState :=
  let st := simStop st
  { st with components := st.components.map (fun c => { c with damaged := false }) }

/-! ## Serialization (CircuitCanvas.toJSON / fromJSON in
src/js/VisualEffects.js, plus the per-class toJSON / fromJSON methods) -/

/-- One serialized component record.  `kind` is `none` for an unknown type
string (one not matched by the fromJSON switch); optional fields model
properties that may be absent from a partial document. -/
structure CompData where
  id : Nat
  kind : Option CKind
  x : Int := 0
  y : Int := 0
  rotation : Option Int := none
  voltageIndex : Option Nat := none
  voltage : Option ℚ := none
  resistanceIndex : Option Nat := none
  resistance : Option ℚ := none
  colorIndex : Option Nat := none
  ledColor : Option String := none
  closed : Option Bool := none
  gpioA : Option Bool := none
  gpioB : Option Bool := none
  deriving DecidableEq

/-- One serialized wire record. -/
structure WireData where
  id : Nat
  fromId : Nat
  fromTerm : String
  toId : Nat
  toTerm : String
  waypoints : Option (List (Int × Int)) := none
  deriving DecidableEq

/-- A serialized circuit document. -/
structure Document where
  version : String := "1.0"
  components : List CompData
  wires : List WireData
  deriving DecidableEq

/-- JavaScript `a || b` for an optional number: an absent or zero value
falls back to the default. -/
def jsOrNat (o : Option Nat) (d : Nat) : Nat :=
  match o with
  | none => d
  | some n => if n = 0 then d else n

/-- JavaScript `a || b` for an optional rational. -/
def jsOrQ (o : Option ℚ) (d : ℚ) : ℚ :=
  match o with
  | none => d
  | some q => if q = 0 then d else q

/-- JavaScript `a || b` for an optional string (empty string is falsy). -/
def jsOrStr (o : Option String) (d : String) : String :=
  match o with
  | none => d
  | some s => if s = "" then d else s

/-- Component.prototype.toJSON plus the per-kind extra fields added by
Battery, Resistor, LED, Switch and RaspberryPi (Diode, Ground,
BatteryPackAA, MotorController and DCMotor serialize only the base
record). -/
def compToJSON (c : Component) : CompData :=
  let base : CompData :=
    { id := c.id, kind := some c.ctype, x := c.x, y := c.y,
      rotation := some c.rotation }
  match c.ctype with
  | CKind.battery =>
      { base with voltageIndex := some c.voltageIndex,
                  voltage := some c.voltage }
  | CKind.resistor =>
      { base with resistanceIndex := some c.resistanceIndex,
                  resistance := some c.resistance }
  | CKind.led =>
      { base with colorIndex := some c.colorIndex,
                  ledColor := some c.ledColor }
  | CKind.switch =>
      { base with closed := some c.closed }
  | CKind.raspberryPi =>
      { base with gpioA := some c.gpioA, gpioB := some c.gpioB }
  | _ => base

/-- Wire.prototype.toJSON. -/
def wireToJSON (w : Wire) : WireData :=
  { id := w.id, fromId := w.fromId, fromTerm := w.fromTerm,
    toId := w.toId, toTerm := w.toTerm, waypoints := some w.waypoints }

/-- CircuitCanvas.toJSON. -/
def canvasToJSON (st : SimState) : Document :=
  { version := "1.0",
    components := st.components.map compToJSON,
    wires := st.wires.map wireToJSON }

/-- Component.prototype.fromJSON followed by the subclass override for the
given kind, applied to a freshly constructed instance of that kind. -/
def componentFromJSON (c : Component) (d : CompData) : Component :=
  let c := { c with id := d.id, x := d.x, y := d.y,
                    rotation := (d.rotation).getD 0 }
  match c.ctype with
  | CKind.battery =>
      let idx := (d.voltageIndex).getD 1
      { c with voltageIndex := idx,
               voltage := (voltageOptions.get? idx).getD 0 }
  | CKind.resistor =>
      { c with resistanceIndex := jsOrNat d.resistanceIndex 1,
               resistance := jsOrQ d.resistance 1000 }
  | CKind.led =>
      { c with colorIndex := jsOrNat d.colorIndex 0,
               ledColor := jsOrStr d.ledColor "red" }
  | CKind.diode =>
      { c with isConducting := false, resistance := c.reverseResistance }
  | CKind.switch =>
      let cl := (d.closed).getD false
      { c with closed := cl,
               resistance := if cl then 1/10 else 1000000000 }
  | CKind.batteryPackAA =>
      { c with voltage := 6 }
  | CKind.raspberryPi =>
      { c with poweredOn := false,
               gpioA := (d.gpioA).getD false,
               gpioB := (d.gpioB).getD false }
  | CKind.motorController =>
      { c with powered := false, signalA := false, signalB := false }
  | CKind.dcMotor =>
      { c with spinning := false, spinAngle := 0 }
  | CKind.ground => c

/-- The component-restoration step of CircuitCanvas.fromJSON: instantiate
the matching class for a known kind (an unknown kind produces nothing and
the entry is skipped), then restore from the record. -/
def instantiateComponent (d : CompData) : Option Component :=
  (d.kind).map (fun k => componentFromJSON (mkComponent k 0 0 0) d)

/-- componentMap.get: JS Map.set overwrites, so the last insertion for an
id wins. -/
def mapGet (cs : List Component) (i : Nat) : Option Component :=
  cs.reverse.find? (fun c => c.id = i)

/-- The wire-restoration step of CircuitCanvas.fromJSON: a wire entry is
rebuilt only when both endpoint component ids resolve in the component
map; its id is overwritten with the persisted id and the remaining fields
come from the Wire constructor. -/
def restoreWire (cs : List Component) (wd : WireData) : Option Wire :=
  match mapGet cs wd.fromId, mapGet cs wd.toId with
  | some fromComp, some toComp =>
      some { id := wd.id,
             fromId := fromComp.id, fromTerm := wd.fromTerm,
             toId := toComp.id, toTerm := wd.toTerm,
             current := 0, resistance := 1/100,
             waypoints := (wd.waypoints).getD [] }
  | _, _ => none

/-- The accumulate-or-skip step of the fromJSON restoration loops: a
produced value is appended, a skipped entry leaves the accumulator
unchanged. -/
def accumOpt {α β : Type} (f : α → Option β) (acc : List β) (d : α) :
    List β :=
  match f d with
  | some c => acc ++ [c]
  | none => acc

/-- CircuitCanvas.fromJSON: clear the canvas, restore the components in
order (skipping unknown kinds), then restore the wires whose endpoints
resolve. -/
def canvasFromJSON (doc : Document) : SimState :=
  let comps := doc.components.foldl (accumOpt instantiateComponent) []
  let wires := doc.wires.foldl (accumOpt (restoreWire comps)) []
  { components := comps, wires := wires }

/-! ## RobotWiringValidator (src/unnamed/part_003) -/

/-- The validator's own state: the cached 10-slot connection array and the
dirty-check counters (lastWireCount starts at -1; _lastCompCount starts
undefined, which compares unequal to any count, modelled by -1). -/
structure VState where
  connections : List Bool := List.replicate 10 false
  lastWireCount : Int := -1
  lastCompCount : Int := -1
  deriving DecidableEq

/-- RobotWiringValidator.isConnected: some wire joins the two named
terminals, in either direction. -/
def isConnected (ws : List Wire) (compA : Component) (termA : String)
    (compB : Component) (termB : String) : Bool :=
  ws.any (fun w =>
    (w.fromId = compA.id && w.fromTerm = termA &&
     w.toId = compB.id && w.toTerm = termB) ||
    (w.fromId = compB.id && w.fromTerm = termB &&
     w.toId = compA.id && w.toTerm = termA))

/-- RobotWiringValidator.findComponents. -/
def findRobotBattery (cs : List Component) : Option Component :=
  cs.find? (fun c => c.ctype = CKind.batteryPackAA)

/-- The first raspberryPi on the canvas. -/
def findRobotPi (cs : List Component) : Option Component :=
  cs.find? (fun c => c.ctype = CKind.raspberryPi)

/-- The first motorController on the canvas. -/
def findRobotController (cs : List Component) : Option Component :=
  cs.find? (fun c => c.ctype = CKind.motorController)

/-- All dcMotor components on the canvas. -/
def findRobotMotors (cs : List Component) : List Component :=
  cs.filter (fun c => c.ctype = CKind.dcMotor)

/-- RobotWiringValidator._recheckConnections: rebuild the 10-slot array,
with the early returns when the battery pack, the Pi or the motor
controller is missing. -/
def recheckConnections (cs : List Component) (ws : List Wire) : List Bool :=
  match findRobotBattery cs, findRobotPi cs with
  | some battery, some pi =>
    let c0 := isConnected ws battery "positive" pi "5V_IN"
    let c1 := isConnected ws battery "negative" pi "GND"
    match findRobotController cs with
    | none => [c0, c1, false, false, false, false, false, false, false, false]
    | some controller =>
      let motors := findRobotMotors cs
      let c2 := isConnected ws battery "positive" controller "VCC"
      let c3 := isConnected ws battery "negative" controller "GND"
      let c4 := isConnected ws pi "GPIO_A" controller "IN_A"
      let c5 := isConnected ws pi "GPIO_B" controller "IN_B"
      let c6 := match motors.get? 0 with
        | some motorA => isConnected ws controller "OUT_A1" motorA "terminal_1"
        | none => false
      let c7 := match motors.get? 0 with
        | some motorA => isConnected ws controller "OUT_A2" motorA "terminal_2"
        | none => false
      let c8 := match motors.get? 1 with
        | some motorB => isConnected ws controller "OUT_B1" motorB "terminal_1"
        | none => false
      let c9 := match motors.get? 1 with
        | some motorB => isConnected ws controller "OUT_B2" motorB "terminal_2"
        | none => false
      [c0, c1, c2, c3, c4, c5, c6, c7, c8, c9]
  | _, _ => List.replicate 10 false

/-- RobotWiringValidator._findWireEnd: the opposite (component id,
terminal) of the first wire attached to the given terminal. -/
def findWireEnd (ws : List Wire) (c : Component) (terminal : String) :
    Option (Nat × String) :=
  ws.findSome? (fun w =>
    if w.fromId = c.id ∧ w.fromTerm = terminal then
      some (w.toId, w.toTerm)
    else if w.toId = c.id ∧ w.toTerm = terminal then
      some (w.fromId, w.fromTerm)
    else none)

/-- RobotWiringValidator._getOtherTerminal for a 2-terminal component. -/
def getOtherTerminal (c : Component) (terminal : String) : Option String :=
  if c.terminals.length = 2 then
    match c.terminals.get? 0, c.terminals.get? 1 with
    | some t0, some t1 => some (if t0.tid = terminal then t1.tid else t0.tid)
    | _, _ => none
  else none

/-- RobotWiringValidator._activateGPIOLED: drive an LED directly from a
GPIO pin through the given series resistance, marking it with the
gpio-driven provenance flag and flagging burnout damage. -/
def activateGPIOLED (st : SimState) (ledId : Nat) (resistance : ℚ) :
    SimState :=
  match findComp st.components ledId with
  | none => st
  | some led =>
    if led.damaged then st
    else
      let gpioVoltage : ℚ := 33/10
      let drop := gpioVoltage - led.forwardVoltage
      if drop ≤ 0 then st
      else
        let current := drop / resistance
        let st :=
          { st with components := updateComp st.components ledId (fun c =>
              { c with current := current, isOn := true,
                       brightness := min (current / c.maxCurrent) 1,
                       gpioDriven := true }) }
        if current > led.burnoutCurrent ∧ led.damaged = false then
          { st with
            components := updateComp st.components ledId
              (fun c => { c with damaged := true }),
            effects := st.effects ++ resistorDamageEffects led.x led.y }
        else st

/-- The per-GPIO trace of RobotWiringValidator._checkGPIOCircuits: the two
accepted path shapes GPIO → resistor → LED(anode..cathode) → Pi GND and
GPIO → LED(anode..cathode) → resistor → Pi GND. -/
def gpioTrace (st : SimState) (pi : Component) (terminal : String) :
    SimState :=
  match findWireEnd st.wires pi terminal with
  | none => st
  | some firstHop =>
    let st1 :=
      match findComp st.components firstHop.1 with
      | some resistor =>
        if resistor.ctype = CKind.resistor then
          match getOtherTerminal resistor firstHop.2 with
          | none => st
          | some otherResTerminal =>
            match findWireEnd st.wires resistor otherResTerminal with
            | none => st
            | some secondHop =>
              match findComp st.components secondHop.1 with
              | some led =>
                if led.ctype = CKind.led ∧ secondHop.2 = "anode" then
                  match findWireEnd st.wires led "cathode" with
                  | none => st
                  | some thirdHop =>
                    if thirdHop.1 = pi.id ∧ thirdHop.2 = "GND" then
                      activateGPIOLED st led.id resistor.resistance
                    else st
                else st
              | none => st
        else st
      | none => st
    match findComp st1.components firstHop.1 with
    | some led =>
      if led.ctype = CKind.led ∧ firstHop.2 = "anode" then
        match findWireEnd st1.wires led "cathode" with
        | none => st1
        | some secondHop =>
          match findComp st1.components secondHop.1 with
          | some resistor =>
            if resistor.ctype = CKind.resistor then
              match getOtherTerminal resistor secondHop.2 with
              | none => st1
              | some otherResTerminal =>
                match findWireEnd st1.wires resistor otherResTerminal with
                | none => st1
                | some thirdHop =>
                  if thirdHop.1 = pi.id ∧ thirdHop.2 = "GND" then
                    activateGPIOLED st1 led.id resistor.resistance
                  else st1
            else st1
          | none => st1
      else st1
    | none => st1

/-- RobotWiringValidator._checkGPIOCircuits: nothing happens unless a
powered Pi is present; previously GPIO-driven LEDs are zeroed first, then
(only while the simulation runs) each logically-high GPIO is traced. -/
def checkGPIOCircuits (st : SimState) : SimState :=
  match findRobotPi st.components with
  | none => st
  | some pi =>
    if pi.poweredOn = false then st
    else
      let st :=
        { st with components := st.components.map (fun c =>
            if c.ctype = CKind.led ∧ c.gpioDriven then
              { c with gpioDriven := false, current := 0, isOn := false,
                       brightness := 0 }
            else c) }
      if st.running = false then st
      else
        let st := if pi.gpioA then gpioTrace st pi "GPIO_A" else st
        if pi.gpioB then gpioTrace st pi "GPIO_B" else st

/-- The state-update part of RobotWiringValidator._applyStates: recompute
the derived booleans (poweredOn, powered, signalA/B, spinning) from the
cached connection array.  In the source each branch ends by calling
_checkGPIOCircuits and returning; that trailing call is factored into
applyStates below. -/
def applyStatesCore (v : VState) (st : SimState) : SimState :=
  let isRunning := st.running
  let conn := fun (i : Nat) => (v.connections.get? i).getD false
  match findRobotPi st.components with
  | none =>
    let st :=
      match findRobotController st.components with
      | some controller =>
        { st with components :=
            (updateComp st.components controller.id (fun c =>
              { c with powered := false, signalA := false,
                       signalB := false })) }
      | none => st
    { st with components := st.components.map (fun c =>
        if c.ctype = CKind.dcMotor then { c with spinning := false } else c) }
  | some pi =>
    match findRobotController st.components with
    | none =>
      let st :=
        { st with components :=
            (updateComp st.components pi.id (fun c =>
              { c with poweredOn := conn 0 && conn 1 })) }
      { st with components :=
          (st.components.map (fun c =>
            if c.ctype = CKind.dcMotor then { c with spinning := false }
            else c)) }
    | some controller =>
      let motors := findRobotMotors st.components
      let piPowered := conn 0 && conn 1
      let ctrlPowered := conn 2 && conn 3
      let sigA := conn 4 && piPowered && pi.gpioA
      let sigB := conn 5 && piPowered && pi.gpioB
      let st :=
        { st with components :=
            (updateComp st.components pi.id (fun c =>
              { c with poweredOn := piPowered })) }
      let st :=
        { st with components :=
            (updateComp st.components controller.id (fun c =>
              { c with powered := ctrlPowered, signalA := sigA,
                       signalB := sigB })) }
      let st :=
        match motors.get? 0 with
        | some motorA =>
          { st with components :=
              (updateComp st.components motorA.id (fun c =>
                { c with spinning :=
                    isRunning && conn 6 && conn 7 && ctrlPowered && sigA })) }
        | none => st
      match motors.get? 1 with
      | some motorB =>
        { st with components :=
            (updateComp st.components motorB.id (fun c =>
              { c with spinning :=
                  isRunning && conn 8 && conn 9 && ctrlPowered && sigB })) }
      | none => st

/-- RobotWiringValidator._applyStates: the derived-state updates followed
by the GPIO-LED trace call that ends every branch of the source. -/
def applyStates (v : VState) (st : SimState) : SimState :=
  checkGPIOCircuits (applyStatesCore v st)

/-- RobotWiringValidator.validate: re-scan the connections only when the
wire or component count changed; always re-apply the derived states. -/
def validate (v : VState) (st : SimState) : VState × SimState :=
  let currentWireCount : Int := st.wires.length
  let componentCount : Int := st.components.length
  let v :=
    if currentWireCount ≠ v.lastWireCount ∨ componentCount ≠ v.lastCompCount
    then
      { connections := recheckConnections st.components st.wires,
        lastWireCount := currentWireCount,
        lastCompCount := componentCount }
    else v
  (v, applyStates v st)

/-- RobotWiringValidator.getProgress. -/
def getProgress (v : VState) : Nat :=
  (v.connections.filter (fun b => b)).length

/-- RobotWiringValidator.getTotal. -/
def getTotal (cs : List Component) : Nat :=
  match findRobotBattery cs, findRobotPi cs, findRobotController cs with
  | some _, some _, some _ =>
    let motors := findRobotMotors cs
    6 + (if 1 ≤ motors.length then 2 else 0) +
      (if 2 ≤ motors.length then 2 else 0)
  | _, _, _ => 0

/-! ## Concrete circuits used by the theorems below -/

/-- A 9V battery (voltage selector index 2). -/
def battery9V : Component :=
  { mkComponent CKind.battery 1 0 0 with voltageIndex := 2, voltage := 9 }

/-- A fresh LED with id 2. -/
def led2 : Component := mkComponent CKind.led 2 100 0

/-- A fresh ground with id 3. -/
def ground3 : Component := mkComponent CKind.ground 3 200 0

/-- Battery positive to LED anode. -/
def wireBatLed : Wire :=
  { id := 10, fromId := 1, fromTerm := "positive", toId := 2, toTerm := "anode" }

/-- LED cathode to ground. -/
def wireLedGnd : Wire :=
  { id := 11, fromId := 2, fromTerm := "cathode", toId := 3, toTerm := "top" }

/-- A second, parallel LED-cathode-to-ground wire. -/
def wireLedGnd2 : Wire :=
  { id := 12, fromId := 2, fromTerm := "cathode", toId := 3, toTerm := "top" }

/-- The running no-resistor LED circuit of the burnout scenario:
9V battery, LED, ground, two wires. -/
def ledBurnoutState : SimState :=
  { components := [battery9V, led2, ground3],
    wires := [wireBatLed, wireLedGnd], running := true }

/-- The shared-LED circuit: the LED's cathode is wired to ground twice, so
the path finder returns two paths through the same LED. -/
def sharedLedState : SimState :=
  { components := [battery9V, led2, ground3],
    wires := [wireBatLed, wireLedGnd, wireLedGnd2], running := true }

/-- A diode with id 2. -/
def diode2 : Component := mkComponent CKind.diode 2 0 0

/-- A wire whose stored from-endpoint is the diode's cathode and whose
to-endpoint is the battery's positive terminal. -/
def wireDiodeCathodeBat : Wire :=
  { id := 10, fromId := 2, fromTerm := "cathode", toId := 1, toTerm := "positive" }

/-- Diode anode to ground. -/
def wireDiodeAnodeGnd : Wire :=
  { id := 11, fromId := 2, fromTerm := "anode", toId := 3, toTerm := "top" }

/-- The reverse-diode circuit: traversal runs battery → diode → ground and
enters the diode through the wire end stored as its cathode. -/
def reverseDiodeState : SimState :=
  { components := [mkComponent CKind.battery 1 0 0, diode2, ground3],
    wires := [wireDiodeCathodeBat, wireDiodeAnodeGnd] }

/-- A battery-resistor loop with no ground. -/
def loopState : SimState :=
  { components := [mkComponent CKind.battery 1 0 0,
                   mkComponent CKind.resistor 2 0 0],
    wires := [{ id := 10, fromId := 1, fromTerm := "positive",
                toId := 2, toTerm := "left" },
              { id := 11, fromId := 2, fromTerm := "right",
                toId := 1, toTerm := "negative" }] }

/-- A resistor whose resistance selector sits on index 0 (10 ohms). -/
def resistorIndexZero : Component :=
  { mkComponent CKind.resistor 5 0 0 with resistanceIndex := 0, resistance := 10 }

/-- A canvas holding only the index-0 resistor. -/
def resistorIndexZeroState : SimState :=
  { components := [resistorIndexZero], wires := [] }

/-- A Raspberry Pi whose GPIO A pin is logically high. -/
def piGpioHigh : Component :=
  { mkComponent CKind.raspberryPi 7 0 0 with gpioA := true, poweredOn := true }

/-- The document produced by serializing a canvas holding the high-pin
Pi. -/
def piGpioHighDoc : Document :=
  canvasToJSON { components := [piGpioHigh], wires := [] }

/-- A battery pack with id 1 and a Pi with id 2. -/
def packPiComponents : List Component :=
  [mkComponent CKind.batteryPackAA 1 0 0, mkComponent CKind.raspberryPi 2 0 0]

/-- Pack positive to Pi 5V_IN. -/
def wirePackPi5V : Wire :=
  { id := 10, fromId := 1, fromTerm := "positive", toId := 2, toTerm := "5V_IN" }

/-- Pi GND to pack negative. -/
def wirePiPackGnd : Wire :=
  { id := 11, fromId := 2, fromTerm := "GND", toId := 1, toTerm := "negative" }

/-- Pack and Pi present, both power slots wired, no motor controller. -/
def packPiState : SimState :=
  { components := packPiComponents, wires := [wirePackPi5V, wirePiPackGnd] }

/-- An LED carrying stale GPIO-driven state (provenance marker set,
nonzero current, lit). -/
def staleGpioLed : Component :=
  { mkComponent CKind.led 3 0 0 with
    gpioDriven := true, current := 1, isOn := true, brightness := 1 }

/-- An unpowered Pi (no wires) next to the stale GPIO-driven LED. -/
def staleGpioState : SimState :=
  { components := [mkComponent CKind.raspberryPi 2 0 0, staleGpioLed],
    wires := [] }

/-- The terminal name by which a wire attaches to the given component: the
stored to-terminal when the wire's to endpoint references the component,
otherwise the stored from-terminal.  Used to express through which
terminal a traversal enters a component. -/
def terminalAt (w : Wire) (c : Component) : String :=
  if w.toId = c.id then w.toTerm else w.fromTerm

/-! ## Claim theorems -/

/-- Claim C1 (code bug): evaluating the round trip at the failing input.
A collection holding a single known-kind component, a resistor whose
resistance selector sits on the valid index 0 (10 ohms), serializes with
resistanceIndex 0 but reloads with resistanceIndex 1 and resistance 10,
because Resistor.fromJSON reads the index with a falsy-default
(data.resistanceIndex or-else 1) that swallows the value 0.  The loaded
selector index differs from the saved one, and the loaded index/resistance
pair no longer satisfies resistance = resistanceOptions[resistanceIndex],
contradicting the round-trip contract the claim states. -/
theorem c1_roundtrip_resistor_index_zero :
    resistorIndexZero.resistanceIndex = 0
  ∧ resistorIndexZero.resistance = 10
  ∧ ((canvasToJSON resistorIndexZeroState).components.map
      (fun d => d.resistanceIndex)) = [some 0]
  ∧ ((canvasFromJSON (canvasToJSON resistorIndexZeroState)).components.map
      (fun c => (c.resistanceIndex, c.resistance))) = [(1, (10 : ℚ))]
  ∧ resistanceOptions.get? 1 ≠ some 10 := by
  decide

/-- Claim C5 counterexample: in the no-resistor LED burnout circuit the
engine's computed path resistance is 100.02 ohms (not 100) and the
computed current is 9/100.02 = 150/1667 A (not 9/100 A), because the two
wires of the path each contribute their 0.01-ohm resistance. -/
theorem c5_counterexample :
    ((simulate ledBurnoutState).lastPathData.map
      (fun d => d.resistance)) = some (10002/100)
  ∧ ((simulate ledBurnoutState).lastPathData.map
      (fun d => d.current)) = some (150/1667)
  ∧ ((10002 : ℚ)/100 ≠ 100) ∧ ((150 : ℚ)/1667 ≠ 9/100) := by
  decide

/-- Claim C5 (amended): for a 9V source wired in series through a single
LED (forward voltage 2V, burnout current 30mA) to ground with no resistor,
a simulate tick computes total resistance 100.02 ohms (the LED equivalent
100 ohms plus 0.01 ohms for each of the two wires), hence current
150/1667 ≈ 89.98mA, which exceeds the 30mA burnout threshold, so the LED
is flagged damaged and the damage-effect burst is emitted exactly once —
a second tick re-runs with the damaged LED excluded and emits nothing
further. -/
theorem c5_led_burnout_once :
    (simulate ledBurnoutState).lastPathData =
      some ⟨9, 150/1667, 10002/100, 1350/1667⟩
  ∧ ((150 : ℚ)/1667 > 30/1000)
  ∧ ((simulate ledBurnoutState).components.map
      (fun c => (c.id, c.damaged))) = [(1, false), (2, true), (3, false)]
  ∧ (simulate ledBurnoutState).effects = ledDamageEffects 100 0
  ∧ (simulate (simulate ledBurnoutState)).effects = ledDamageEffects 100 0
  ∧ ((simulate (simulate ledBurnoutState)).components.map
      (fun c => (c.damaged, c.current))) =
      [(false, 0), (true, 0), (false, 0)] := by
  decide

/-- Claim C2 counterexample: stopping the simulation does not set every
component's voltage to zero — in the LED circuit the battery's voltage is
restored to its configured 9V by Battery.reset, not zeroed, after the
stop sequence. -/
theorem c2_counterexample :
    ((stopSequence ledBurnoutState).components.map (fun c => c.voltage)) =
      [9, 0, 0]
  ∧ ((9 : ℚ) ≠ 0) := by
  decide

/-- Claim C3 counterexample: a document persisting the controller's GPIO A
pin as high is deserialized with gpioA still true — RaspberryPi.fromJSON
restores the persisted pin values and resets only poweredOn. -/
theorem c3_counterexample :
    (piGpioHighDoc.components.map (fun d => d.gpioA)) = [some true]
  ∧ ((canvasFromJSON piGpioHighDoc).components.map
      (fun c => (c.gpioA, c.gpioB, c.poweredOn))) = [(true, false, false)] := by
  decide

/-- Claim C4 counterexample: findAllPaths returns a path in which the
traversal enters the diode through its cathode terminal.  The wire is
stored with the cathode as its from endpoint, so
checkDiodeDirectionInPath (which only rejects wires whose stored to
endpoint is a cathode) keeps the path even though current would enter the
device at its cathode. -/
theorem c4_counterexample :
    findAllPaths reverseDiodeState.components reverseDiodeState.wires =
      [⟨[mkComponent CKind.battery 1 0 0, diode2, ground3],
        [wireDiodeCathodeBat, wireDiodeAnodeGnd]⟩]
  ∧ diode2.ctype = CKind.diode
  ∧ terminalAt wireDiodeCathodeBat diode2 = "cathode" := by
  decide

/-- Claim C6 counterexample: with the Pi present but unpowered, a
validator pass leaves a previously GPIO-driven LED un-reset — it keeps
its provenance marker, nonzero current, lit state and brightness, because
_checkGPIOCircuits returns before the reset loop when the Pi is not
powered. -/
theorem c6_counterexample :
    staleGpioLed.gpioDriven = true
  ∧ (((validate {} staleGpioState).2).components.map
      (fun c => (c.current, c.isOn, c.brightness, c.gpioDriven))) =
      [(0, false, 0, false), (1, true, 1, true)] := by
  decide

/-- Claim C8 counterexample: after a single simulate call on the
shared-LED circuit (two paths through one LED), the LED is damaged and
still carries the nonzero path current: the first path burns it out and
the second, already-enumerated path overwrites its current. -/
theorem c8_counterexample :
    ((simulate sharedLedState).components.map
      (fun c => (c.damaged, c.current))) =
      [(false, 150/1667), (true, 150/1667), (false, 150/1667)]
  ∧ ((150 : ℚ)/1667 ≠ 0) := by
  decide

/-! ## Deserialization structure lemmas -/

/-- The accumulate-or-skip fold of fromJSON is a filterMap. -/
theorem foldl_opt_append {α β : Type} (f : α → Option β) (l : List α)
    (acc : List β) :
    l.foldl (accumOpt f) acc = acc ++ l.filterMap f := by
  induction l generalizing acc with
  | nil => simp
  | cons d l ih =>
    cases h : f d with
    | none => simp [List.foldl_cons, accumOpt, h, ih, List.filterMap_cons]
    | some c => simp [List.foldl_cons, accumOpt, h, ih, List.filterMap_cons]

/-- The components restored by fromJSON are exactly the known-kind entries,
in order. -/
theorem fromJSON_components_eq (doc : Document) :
    (canvasFromJSON doc).components =
      doc.components.filterMap instantiateComponent := by
  simp [canvasFromJSON, foldl_opt_append]

/-- The wires restored by fromJSON are exactly the resolvable entries, in
order. -/
theorem fromJSON_wires_eq (doc : Document) :
    (canvasFromJSON doc).wires =
      doc.wires.filterMap
        (restoreWire (doc.components.filterMap instantiateComponent)) := by
  simp [canvasFromJSON, foldl_opt_append]

/-- An entry is skipped by the component-restoration switch exactly when
its kind is unknown. -/
theorem instantiateComponent_eq_none_iff (d : CompData) :
    instantiateComponent d = none ↔ d.kind = none := by
  cases h : d.kind <;> simp [instantiateComponent, h]

/-- A wire entry is dropped exactly when one of its endpoint component ids
does not resolve in the restored component map. -/
theorem restoreWire_eq_none_iff (cs : List Component) (wd : WireData) :
    restoreWire cs wd = none ↔
      (mapGet cs wd.fromId = none ∨ mapGet cs wd.toId = none) := by
  cases hf : mapGet cs wd.fromId <;> cases ht : mapGet cs wd.toId <;>
    simp [restoreWire, hf, ht]

/-- Claim C7: deserialization degrades benignly on partial documents.  The
restored component list is the in-order image of exactly the known-kind
entries (an unknown kind is skipped, never instantiated), and the restored
wire list is the in-order image of exactly those wire entries whose two
endpoint component ids both resolve against the restored components (a
wire referencing a missing id is omitted); in the embedding every document
deserializes to a value, so no failure is possible. -/
theorem c7_fromJSON_partial_documents (doc : Document) :
    (canvasFromJSON doc).components =
      doc.components.filterMap instantiateComponent
  ∧ (canvasFromJSON doc).wires =
      doc.wires.filterMap
        (restoreWire (doc.components.filterMap instantiateComponent))
  ∧ (∀ d : CompData, instantiateComponent d = none ↔ d.kind = none)
  ∧ (∀ wd : WireData,
      restoreWire (doc.components.filterMap instantiateComponent) wd = none ↔
        (mapGet (doc.components.filterMap instantiateComponent) wd.fromId
            = none ∨
         mapGet (doc.components.filterMap instantiateComponent) wd.toId
            = none)) :=
  ⟨fromJSON_components_eq doc, fromJSON_wires_eq doc,
   fun d => instantiateComponent_eq_none_iff d,
   fun wd => restoreWire_eq_none_iff _ wd⟩

/-- componentFromJSON never changes the kind of the instance it
restores. -/
theorem componentFromJSON_ctype (c : Component) (d : CompData) :
    (componentFromJSON c d).ctype = c.ctype := by
  cases h : c.ctype <;> simp [componentFromJSON, h]

/-- The class constructor produces an instance of the requested kind. -/
theorem mkComponent_ctype (k : CKind) (i : Nat) (px py : Int) :
    (mkComponent k i px py).ctype = k := by
  cases k <;> rfl

/-- Claim C3 (amended): immediately after deserializing a circuit
document, a restored controller-with-digital-outputs component has
poweredOn = false, but its digital output pin states gpioA and gpioB are
restored from the persisted entry (defaulting to false only when the
field is absent) — the persisted pin values are carried into the loaded
state. -/
theorem c3_pi_pins_after_load (doc : Document) (c : Component)
    (hc : c ∈ (canvasFromJSON doc).components)
    (hk : c.ctype = CKind.raspberryPi) :
    c.poweredOn = false ∧
    ∃ d ∈ doc.components, d.kind = some CKind.raspberryPi ∧
      c.gpioA = (d.gpioA).getD false ∧ c.gpioB = (d.gpioB).getD false := by
  rw [fromJSON_components_eq] at hc
  obtain ⟨d, hd, hinst⟩ := List.mem_filterMap.mp hc
  cases hkind : d.kind with
  | none => rw [instantiateComponent, hkind] at hinst; simp at hinst
  | some k =>
    rw [instantiateComponent, hkind] at hinst
    simp only [Option.map_some', Option.some_inj] at hinst
    have hck : c.ctype = k := by
      rw [← hinst, componentFromJSON_ctype, mkComponent_ctype]
    have hkval : k = CKind.raspberryPi := by rw [← hck, hk]
    subst hkval
    subst hinst
    refine ⟨by simp [componentFromJSON, mkComponent], d, hd, hkind, ?_, ?_⟩ <;>
      simp [componentFromJSON, mkComponent]

/-- The Pi restored from the high-pin document. -/
def piAfterLoad : Component :=
  { mkComponent CKind.raspberryPi 7 0 0 with gpioA := true }

/-- Witness for Claim C3's theorem at the high-pin document. -/
theorem c3_pi_pins_after_load_witness :
    (piAfterLoad ∈ (canvasFromJSON piGpioHighDoc).components)
  ∧ piAfterLoad.ctype = CKind.raspberryPi
  ∧ (piAfterLoad.poweredOn = false ∧
     ∃ d ∈ piGpioHighDoc.components, d.kind = some CKind.raspberryPi ∧
       piAfterLoad.gpioA = (d.gpioA).getD false ∧
       piAfterLoad.gpioB = (d.gpioB).getD false) :=
  ⟨by decide, by decide,
   c3_pi_pins_after_load piGpioHighDoc piAfterLoad (by decide) (by decide)⟩

/-- A reset component always comes out with its damage flag clear, its
current and temperature zero, and its kind unchanged. -/
theorem componentReset_fields (a : Component) :
    (componentReset a).current = 0 ∧ (componentReset a).temperature = 0 ∧
    (componentReset a).damaged = false ∧ (componentReset a).ctype = a.ctype := by
  cases h : a.ctype <;> simp [componentReset, h]

/-- A reset component of a non-source, non-robotics kind has voltage
zero. -/
theorem componentReset_voltage (a : Component)
    (h1 : a.ctype ≠ CKind.battery) (h2 : a.ctype ≠ CKind.batteryPackAA)
    (h3 : a.ctype ≠ CKind.raspberryPi) (h4 : a.ctype ≠ CKind.motorController)
    (h5 : a.ctype ≠ CKind.dcMotor) : (componentReset a).voltage = 0 := by
  cases h : a.ctype <;> simp_all [componentReset]

/-- componentReset is idempotent. -/
theorem componentReset_idem (a : Component) :
    componentReset (componentReset a) = componentReset a := by
  cases h : a.ctype <;> simp [componentReset, h]

/-- The component list after the UI stop sequence: every component is
reset and its damage flag force-cleared. -/
theorem stopSequence_components (st : SimState) :
    (stopSequence st).components =
      st.components.map (fun c => { componentReset c with damaged := false }) := by
  simp only [stopSequence, simStop, resetAllComponents, List.map_map]
  refine List.map_congr_left (fun a _ => ?_)
  by_cases h : a.damaged <;> simp [resetComponentKeepDamage, h]

/-- Claim C2 (amended): the UI stop sequence performs the per-tick reset
(every component's current and temperature and every wire's current are
zeroed; voltage is zeroed for every kind except the source kinds, which
restore their configured source voltage, and the robotics kinds, whose
reset does not touch voltage) and additionally force-clears every
component's damaged flag, so no component is damaged afterwards; running
the sequence twice leaves exactly the state of a single run. -/
theorem c2_stop_sequence (st : SimState) :
    ((stopSequence st).running = false)
  ∧ (∀ c ∈ (stopSequence st).components,
        c.current = 0 ∧ c.temperature = 0 ∧ c.damaged = false)
  ∧ (∀ w ∈ (stopSequence st).wires, w.current = 0)
  ∧ (∀ c ∈ (stopSequence st).components,
        c.ctype ≠ CKind.battery → c.ctype ≠ CKind.batteryPackAA →
        c.ctype ≠ CKind.raspberryPi → c.ctype ≠ CKind.motorController →
        c.ctype ≠ CKind.dcMotor → c.voltage = 0)
  ∧ stopSequence (stopSequence st) = stopSequence st := by
  refine ⟨rfl, ?_, ?_, ?_, ?_⟩
  · intro c hc
    rw [stopSequence_components] at hc
    obtain ⟨a, _, rfl⟩ := List.mem_map.mp hc
    have h := componentReset_fields a
    exact ⟨h.1, h.2.1, rfl⟩
  · intro w hw
    simp only [stopSequence, simStop, resetAllComponents] at hw
    obtain ⟨a, _, rfl⟩ := List.mem_map.mp hw
    rfl
  · intro c hc h1 h2 h3 h4 h5
    rw [stopSequence_components] at hc
    obtain ⟨a, _, rfl⟩ := List.mem_map.mp hc
    have hct : (componentReset a).ctype = a.ctype := (componentReset_fields a).2.2.2
    have : ({ componentReset a with damaged := false } : Component).voltage
        = (componentReset a).voltage := rfl
    rw [this]
    refine componentReset_voltage a ?_ ?_ ?_ ?_ ?_ <;>
      simp_all
  · have hc : (stopSequence (stopSequence st)).components =
        (stopSequence st).components := by
      rw [stopSequence_components, stopSequence_components, List.map_map]
      refine List.map_congr_left (fun a _ => ?_)
      simp only [Function.comp]
      have h1 : componentReset ({ componentReset a with damaged := false }) =
          componentReset (componentReset a) := by
        have : ({ componentReset a with damaged := false } : Component) =
            componentReset a := by
          have hd : (componentReset a).damaged = false :=
            (componentReset_fields a).2.2.1
          cases hr : componentReset a
          simp_all
        rw [this]
      rw [h1, componentReset_idem]
    have hw : (stopSequence (stopSequence st)).wires =
        (stopSequence st).wires := by
      simp [stopSequence, simStop, resetAllComponents, List.map_map]
    calc stopSequence (stopSequence st)
        = ⟨(stopSequence (stopSequence st)).components,
           (stopSequence (stopSequence st)).wires, false,
           st.lastPathData, st.effects⟩ := rfl
      _ = ⟨(stopSequence st).components, (stopSequence st).wires, false,
           st.lastPathData, st.effects⟩ := by rw [hc, hw]
      _ = stopSequence st := rfl

/-- Witness for Claim C2's theorem at the LED circuit. -/
theorem c2_stop_sequence_witness :
    ((stopSequence ledBurnoutState).running = false)
  ∧ (led2 ∈ ledBurnoutState.components)
  ∧ (∀ c ∈ (stopSequence ledBurnoutState).components,
        c.current = 0 ∧ c.temperature = 0 ∧ c.damaged = false)
  ∧ stopSequence (stopSequence ledBurnoutState) = stopSequence ledBurnoutState :=
  ⟨(c2_stop_sequence ledBurnoutState).1, by decide,
   (c2_stop_sequence ledBurnoutState).2.1,
   (c2_stop_sequence ledBurnoutState).2.2.2.2⟩

/-- Claim C10: the validator's progress can exceed its total.  getTotal is
zero whenever the battery pack, the Pi or the motor controller is absent,
while getProgress counts every cached satisfied slot; concretely, with a
pack and a Pi present, both pack-to-Pi power slots wired and no motor
controller, a validator pass reports progress 2 against total 0. -/
theorem c10_progress_exceeds_total :
    (∀ cs : List Component,
        (findRobotBattery cs = none ∨ findRobotPi cs = none ∨
         findRobotController cs = none) → getTotal cs = 0)
  ∧ getProgress (validate {} packPiState).1 = 2
  ∧ getTotal packPiState.components = 0
  ∧ getTotal ((validate {} packPiState).2).components = 0 := by
  refine ⟨?_, by decide, by decide, by decide⟩
  intro cs h
  unfold getTotal
  rcases h with h | h | h <;> rw [h] <;>
    first
      | rfl
      | (cases hb : findRobotBattery cs <;> cases hp : findRobotPi cs <;>
          simp [hb, hp])

/-- Witness for Claim C10's theorem: the pack-and-Pi canvas has no motor
controller, so the universal clause applies to it. -/
theorem c10_progress_exceeds_total_witness :
    (findRobotController packPiState.components = none)
  ∧ getTotal packPiState.components = 0
  ∧ getProgress (validate {} packPiState).1 = 2 :=
  ⟨by decide,
   c10_progress_exceeds_total.1 packPiState.components
     (Or.inr (Or.inr (by decide))),
   c10_progress_exceeds_total.2.1⟩


/-! ## Validator GPIO-LED reset lemmas (Claim C6) -/

/-- The fields of a component observed by the GPIO-LED reset argument:
identity, kind, provenance marker and the driven electrical state. -/
def ledView (c : Component) : Nat × CKind × Bool × ℚ × Bool × ℚ :=
  (c.id, c.ctype, c.gpioDriven, c.current, c.isOn, c.brightness)

/-- The derived-state updates of _applyStates write only poweredOn,
powered, signalA/B and spinning: positionwise they do not disturb any
component's id, kind, provenance marker, current, lit state or
brightness. -/
theorem applyStatesCore_ledView (v : VState) (st : SimState) (n : Nat) :
    ((applyStatesCore v st).components[n]?).map ledView =
      (st.components[n]?).map ledView := by
  unfold applyStatesCore
  simp only [updateComp, List.map_map]
  repeat' split
  all_goals
    simp only [List.getElem?_map, Option.map_map]
  all_goals
    cases h : st.components[n]?
  all_goals
    simp only [h, Option.map_none', Option.map_some', Function.comp]
  all_goals
    split_ifs <;> rfl

/-- Searching for the first Pi commutes with a kind-preserving rewrite of
the collection. -/
theorem findRobotPi_map (cs : List Component) (f : Component → Component)
    (hf : ∀ c, (f c).ctype = c.ctype) :
    findRobotPi (cs.map f) = (findRobotPi cs).map f := by
  unfold findRobotPi
  rw [List.find?_map]
  have hp : ((fun c => decide (c.ctype = CKind.raspberryPi)) ∘ f) =
      (fun c => decide (c.ctype = CKind.raspberryPi)) := by
    funext c
    simp [Function.comp, hf]
  rw [hp]

/-- After the derived-state updates, the first Pi's poweredOn flag holds
exactly the conjunction of the two cached power slots. -/
theorem applyStatesCore_pi_power (v : VState) (st : SimState) (pi : Component)
    (hpi : findRobotPi st.components = some pi) :
    ∃ pi', findRobotPi (applyStatesCore v st).components = some pi' ∧
      pi'.poweredOn = ((v.connections.get? 0).getD false &&
                       (v.connections.get? 1).getD false) := by
  unfold applyStatesCore
  rw [hpi]
  cases hctrl : findRobotController st.components with
  | none =>
    simp only
    rw [show (updateComp st.components pi.id (fun c =>
        { c with poweredOn := (v.connections.get? 0).getD false &&
            (v.connections.get? 1).getD false })) =
        st.components.map (fun c => if c.id = pi.id then
          { c with poweredOn := (v.connections.get? 0).getD false &&
              (v.connections.get? 1).getD false } else c) from rfl]
    rw [List.map_map]
    rw [findRobotPi_map _ _ (by
      intro c
      simp only [Function.comp]
      split_ifs <;> rfl)]
    rw [hpi]
    refine ⟨_, rfl, ?_⟩
    simp only [Function.comp]
    split_ifs with h1 h2 h2 <;> first | rfl | exact absurd rfl h1 | exact absurd rfl ‹_›
  | some controller =>
    simp only
    cases hm0 : (findRobotMotors st.components).get? 0 with
    | none =>
      cases hm1 : (findRobotMotors st.components).get? 1 with
      | none =>
        simp only [updateComp, List.map_map]
        rw [findRobotPi_map _ _ (by
          intro c; simp only [Function.comp]; split_ifs <;> rfl)]
        rw [hpi]
        refine ⟨_, rfl, ?_⟩
        simp only [Function.comp]
        split_ifs <;> first | rfl | exact absurd rfl ‹_›
      | some mB =>
        simp only [updateComp, List.map_map]
        rw [findRobotPi_map _ _ (by
          intro c; simp only [Function.comp]; split_ifs <;> rfl)]
        rw [hpi]
        refine ⟨_, rfl, ?_⟩
        simp only [Function.comp]
        split_ifs <;> first | rfl | exact absurd rfl ‹_›
    | some mA =>
      cases hm1 : (findRobotMotors st.components).get? 1 with
      | none =>
        simp only [updateComp, List.map_map]
        rw [findRobotPi_map _ _ (by
          intro c; simp only [Function.comp]; split_ifs <;> rfl)]
        rw [hpi]
        refine ⟨_, rfl, ?_⟩
        simp only [Function.comp]
        split_ifs <;> first | rfl | exact absurd rfl ‹_›
      | some mB =>
        simp only [updateComp, List.map_map]
        rw [findRobotPi_map _ _ (by
          intro c; simp only [Function.comp]; split_ifs <;> rfl)]
        rw [hpi]
        refine ⟨_, rfl, ?_⟩
        simp only [Function.comp]
        split_ifs <;> first | rfl | exact absurd rfl ‹_›

/-- Invariant: if the component in slot n has a cleared provenance marker,
then it is electrically off. -/
def ledZeroAt (cs : List Component) (n : Nat) : Prop :=
  ∀ c', cs[n]? = some c' → c'.gpioDriven = false →
    c'.current = 0 ∧ c'.isOn = false ∧ c'.brightness = 0

/-- ledZeroAt survives any per-element rewrite that, whenever it leaves
the marker cleared, either leaves the element alone, preserves the
observed fields, or writes the zero state. -/
theorem ledZeroAt_map (cs : List Component) (n : Nat)
    (f : Component → Component) (h : ledZeroAt cs n)
    (hf : ∀ c, (f c).gpioDriven = false →
      (f c = c) ∨
      ((f c).current = c.current ∧ (f c).isOn = c.isOn ∧
       (f c).brightness = c.brightness ∧ (f c).gpioDriven = c.gpioDriven) ∨
      ((f c).current = 0 ∧ (f c).isOn = false ∧ (f c).brightness = 0)) :
    ledZeroAt (cs.map f) n := by
  intro c' hc' hg
  rw [List.getElem?_map] at hc'
  cases hx : cs[n]? with
  | none => rw [hx] at hc'; exact absurd hc' (by simp)
  | some c =>
    rw [hx] at hc'
    simp only [Option.map_some', Option.some_inj] at hc'
    subst hc'
    rcases hf c hg with h1 | h1 | h1
    · rw [h1] at hg ⊢
      exact h c hx hg
    · obtain ⟨e1, e2, e3, e4⟩ := h1
      rw [e1, e2, e3]
      exact h c hx (e4 ▸ hg)
    · exact h1

/-- _activateGPIOLED preserves the invariant: it either re-marks the LED
it drives (marker set) or only flags damage. -/
theorem activateGPIOLED_ledZeroAt (s : SimState) (j : Nat) (r : ℚ) (n : Nat)
    (h : ledZeroAt s.components n) :
    ledZeroAt (activateGPIOLED s j r).components n := by
  unfold activateGPIOLED
  cases hf : findComp s.components j with
  | none => exact h
  | some led =>
    simp only
    split
    · exact h
    · split
      · exact h
      · split
        · simp only [updateComp, List.map_map]
          refine ledZeroAt_map _ _ _ h ?_
          intro c hgd
          by_cases hij : c.id = j
          · exfalso
            simp [Function.comp, hij] at hgd
          · left
            simp [Function.comp, hij]
        · simp only [updateComp]
          refine ledZeroAt_map _ _ _ h ?_
          intro c hgd
          by_cases hij : c.id = j
          · exfalso
            simp [hij] at hgd
          · left
            simp [hij]

/-- The per-GPIO trace preserves the invariant. -/
theorem gpioTrace_ledZeroAt (s : SimState) (p : Component) (t : String)
    (n : Nat) (h : ledZeroAt s.components n) :
    ledZeroAt (gpioTrace s p t).components n := by
  unfold gpioTrace
  repeat' split
  all_goals
    try simp only []
  all_goals
    try repeat' split
  all_goals
    first
      | exact h
      | exact activateGPIOLED_ledZeroAt _ _ _ _ h
      | exact activateGPIOLED_ledZeroAt _ _ _ _
          (activateGPIOLED_ledZeroAt _ _ _ _ h)

/-- _checkGPIOCircuits with a powered Pi present: slot n, which held a
marked LED, afterwards satisfies the zero-or-redriven invariant. -/
theorem checkGPIO_zeroes (st : SimState) (n : Nat) (c pi : Component)
    (hpi : findRobotPi st.components = some pi) (hpow : pi.poweredOn = true)
    (hc : st.components[n]? = some c) (hled : c.ctype = CKind.led)
    (hmark : c.gpioDriven = true) :
    ledZeroAt (checkGPIOCircuits st).components n := by
  unfold checkGPIOCircuits
  simp only [hpi]
  rw [if_neg (by simp [hpow])]
  have hbase : ledZeroAt (st.components.map (fun c =>
      if c.ctype = CKind.led ∧ c.gpioDriven then
        { c with gpioDriven := false, current := 0, isOn := false,
                 brightness := 0 }
      else c)) n := by
    intro c' hc' _
    rw [List.getElem?_map, hc] at hc'
    simp only [Option.map_some', Option.some_inj] at hc'
    subst hc'
    rw [if_pos ⟨hled, hmark⟩]
    exact ⟨rfl, rfl, rfl⟩
  try simp only []
  repeat' split
  all_goals
    first
      | exact hbase
      | exact gpioTrace_ledZeroAt _ _ _ _ hbase
      | exact gpioTrace_ledZeroAt _ _ _ _ (gpioTrace_ledZeroAt _ _ _ _ hbase)

/-- Claim C6 (amended): on every wiring-validator validate pass in which
the controller-with-digital-outputs component is present and its two power
slots are satisfied in the cached connection array (so it is powered),
every light-emitter previously marked with the GPIO-driven provenance
marker is reset to zero current, off state and zero brightness before the
digital-output trace runs, and therefore ends the pass either freshly
re-driven (marker set again by the trace) or fully zeroed with the marker
cleared.  When the controller is absent or unpowered, _checkGPIOCircuits
returns early and no reset happens (see the counterexample). -/
theorem c6_gpio_led_reset (v : VState) (st : SimState) (pi c : Component)
    (n : Nat)
    (hpi : findRobotPi st.components = some pi)
    (hconn0 : (((validate v st).1).connections.get? 0).getD false = true)
    (hconn1 : (((validate v st).1).connections.get? 1).getD false = true)
    (hc : st.components[n]? = some c)
    (hled : c.ctype = CKind.led) (hmark : c.gpioDriven = true) :
    ∀ c', (((validate v st).2).components)[n]? = some c' →
      c'.gpioDriven = false →
      c'.current = 0 ∧ c'.isOn = false ∧ c'.brightness = 0 := by
  have h2 : (validate v st).2 = applyStates (validate v st).1 st := rfl
  rw [h2]
  unfold applyStates
  obtain ⟨pi', hpi', hpow'⟩ :=
    applyStatesCore_pi_power (validate v st).1 st pi hpi
  rw [hconn0, hconn1] at hpow'
  simp only [Bool.and_self] at hpow'
  have hview := applyStatesCore_ledView (validate v st).1 st n
  rw [hc] at hview
  cases hx : (applyStatesCore (validate v st).1 st).components[n]? with
  | none =>
    rw [hx] at hview
    exact absurd hview (by simp)
  | some c1 =>
    rw [hx] at hview
    simp only [Option.map_some', Option.some_inj, ledView, Prod.mk.injEq]
      at hview
    exact checkGPIO_zeroes _ n c1 pi' hpi' hpow' hx
      (by rw [hview.2.1, hled]) (by rw [hview.2.2.1, hmark])


/-- A powered pack-and-Pi canvas that also holds the stale GPIO-driven
LED. -/
def poweredStaleState : SimState :=
  { components := [mkComponent CKind.batteryPackAA 1 0 0,
                   mkComponent CKind.raspberryPi 2 0 0, staleGpioLed],
    wires := [wirePackPi5V, wirePiPackGnd], running := false }

/-- Witness for Claim C6's theorem on the powered canvas: the stale LED in
slot 2 is zeroed by the validate pass. -/
theorem c6_gpio_led_reset_witness :
    (findRobotPi poweredStaleState.components =
      some (mkComponent CKind.raspberryPi 2 0 0))
  ∧ ((((validate {} poweredStaleState).1).connections.get? 0).getD false
      = true)
  ∧ (poweredStaleState.components[2]? = some staleGpioLed)
  ∧ staleGpioLed.ctype = CKind.led
  ∧ staleGpioLed.gpioDriven = true
  ∧ (∀ c', (((validate {} poweredStaleState).2).components)[2]? = some c' →
      c'.gpioDriven = false →
      c'.current = 0 ∧ c'.isOn = false ∧ c'.brightness = 0) :=
  ⟨by decide, by decide, by decide, by decide, by decide,
   c6_gpio_led_reset {} poweredStaleState
     (mkComponent CKind.raspberryPi 2 0 0) staleGpioLed 2
     (by decide) (by decide) (by decide) (by decide) (by decide) (by decide)⟩

/-! ## Path-finder correctness (Claims C4, C8, C9) -/


/-- The emission relation of the DFS stack machine: from entry e the loop
eventually records path p. -/
inductive Reaches (cs : List Component) (ws : List Wire) (start : Component)
    (ends : List Component) : Entry → PathRec → Prop where
  | done (e : Entry) (hcomp : entryComplete ends e)
      (hchk : checkDiodeDirectionInPath e.path e.wires = false) :
      Reaches cs ws start ends e ⟨e.path, e.wires⟩
  | step (e e' : Entry) (p : PathRec) (hncomp : ¬ entryComplete ends e)
      (hmem : e' ∈ entryPushes cs ws start e)
      (h : Reaches cs ws start ends e' p) :
      Reaches cs ws start ends e p

/-- Soundness of the stack machine: every recorded path is either already
in the accumulator or emitted from some stack entry. -/
theorem mem_dfsLoop_sound (cs : List Component) (ws : List Wire)
    (start : Component) (ends : List Component) :
    ∀ (fuel : Nat) (stack : List Entry) (acc : List PathRec) (p : PathRec),
      p ∈ dfsLoop cs ws start ends fuel stack acc →
      p ∈ acc ∨ ∃ e ∈ stack, Reaches cs ws start ends e p := by
  intro fuel
  induction fuel with
  | zero => intro stack acc p hp; exact Or.inl hp
  | succ fuel ih =>
    intro stack acc p hp
    cases stack with
    | nil => exact Or.inl hp
    | cons e rest =>
      rw [dfsLoop] at hp
      by_cases hc : entryComplete ends e
      · rw [if_pos hc] at hp
        by_cases hchk : checkDiodeDirectionInPath e.path e.wires = true
        · rw [if_pos hchk] at hp
          rcases ih rest acc p hp with h | ⟨e', he', hr⟩
          · exact Or.inl h
          · exact Or.inr ⟨e', List.mem_cons_of_mem _ he', hr⟩
        · rw [if_neg hchk] at hp
          rcases ih rest (acc ++ [⟨e.path, e.wires⟩]) p hp with h | ⟨e', he', hr⟩
          · rcases List.mem_append.mp h with h | h
            · exact Or.inl h
            · rcases List.mem_singleton.mp h with rfl
              exact Or.inr ⟨e, List.mem_cons_self _ _,
                Reaches.done e hc (Bool.not_eq_true _ ▸ hchk)⟩
          · exact Or.inr ⟨e', List.mem_cons_of_mem _ he', hr⟩
      · rw [if_neg hc] at hp
        rcases ih _ acc p hp with h | ⟨e', he', hr⟩
        · exact Or.inl h
        · rcases List.mem_append.mp he' with h' | h'
          · exact Or.inr ⟨e, List.mem_cons_self _ _,
              Reaches.step e e' p hc (List.mem_reverse.mp h') hr⟩
          · exact Or.inr ⟨e', List.mem_cons_of_mem _ h', hr⟩

/-- The accumulator only grows. -/
theorem dfsLoop_acc_mono (cs : List Component) (ws : List Wire)
    (start : Component) (ends : List Component) :
    ∀ (fuel : Nat) (stack : List Entry) (acc : List PathRec) (p : PathRec),
      p ∈ acc → p ∈ dfsLoop cs ws start ends fuel stack acc := by
  intro fuel
  induction fuel with
  | zero => intro stack acc p hp; exact hp
  | succ fuel ih =>
    intro stack acc p hp
    cases stack with
    | nil => exact hp
    | cons e rest =>
      rw [dfsLoop]
      by_cases hc : entryComplete ends e
      · rw [if_pos hc]
        by_cases hchk : checkDiodeDirectionInPath e.path e.wires = true
        · rw [if_pos hchk]; exact ih rest acc p hp
        · rw [if_neg hchk]
          exact ih rest _ p (List.mem_append.mpr (Or.inl hp))
      · rw [if_neg hc]
        exact ih _ acc p hp

/-- An emitted path passes the diode-direction filter. -/
theorem Reaches_check (cs : List Component) (ws : List Wire)
    (start : Component) (ends : List Component) (e : Entry) (p : PathRec)
    (h : Reaches cs ws start ends e p) :
    checkDiodeDirectionInPath p.components p.wires = false := by
  induction h with
  | done e hcomp hchk => exact hchk
  | step e e' p hncomp hmem h ih => exact ih



/-- Weight of a stack entry: shrinking as the entry uses more wires. -/
def entryMeasure (nw : Nat) (e : Entry) : Nat :=
  (nw + 1) ^ (nw + 1 - e.wires.length)

/-- Total weight of the stack. -/
def stackMeasure (nw : Nat) (stack : List Entry) : Nat :=
  (stack.map (entryMeasure nw)).sum

/-- Well-formedness of a stack entry: its used wires are distinct members
of the circuit's wire list. -/
def EntryInv (ws : List Wire) (e : Entry) : Prop :=
  e.wires.Nodup ∧ ∀ w ∈ e.wires, w ∈ ws

/-- Unpack a membership in entryPushes into the source-level push
conditions. -/
theorem mem_entryPushes (cs : List Component) (ws : List Wire)
    (start : Component) (e e' : Entry)
    (h : e' ∈ entryPushes cs ws start e) :
    ∃ next w, w ∈ ws ∧ getOtherComponent cs w e.comp = some next ∧
      w ∉ e.wires ∧
      (next ∈ e.path → (next = start ∧ 1 < e.path.length)) ∧
      ¬(next.ctype = CKind.switch ∧ next.closed = false) ∧
      next.damaged = false ∧ e.comp.damaged = false ∧
      e' = ⟨next, e.path ++ [next], e.wires ++ [w]⟩ := by
  obtain ⟨pr, hadj, heq⟩ := List.mem_filterMap.mp h
  obtain ⟨w', hw', hmap⟩ := List.mem_filterMap.mp hadj
  obtain ⟨hwin, _⟩ := List.mem_filter.mp hw'
  cases hoth : getOtherComponent cs w' e.comp with
  | none => rw [hoth] at hmap; exact absurd hmap (by simp)
  | some o =>
    rw [hoth] at hmap
    simp only [Option.map_some', Option.some_inj] at hmap
    subst hmap
    simp only at heq
    split_ifs at heq with h1 h2 h3 h4 h5
    refine ⟨o, w', hwin, hoth, h1, ?_, h3, by simpa using h4,
      by simpa using h5, (Option.some_inj.mp heq).symm⟩
    intro hmem
    by_cases hcl : o = start ∧ 1 < e.path.length
    · exact hcl
    · exact absurd ⟨hmem, hcl⟩ h2

/-- Build a membership in entryPushes from the push conditions. -/
theorem entryPushes_intro (cs : List Component) (ws : List Wire)
    (start : Component) (e : Entry) (next : Component) (w : Wire)
    (hwin : w ∈ ws) (hoth : getOtherComponent cs w e.comp = some next)
    (hwu : w ∉ e.wires)
    (hrev : next ∈ e.path → (next = start ∧ 1 < e.path.length))
    (hsw : ¬(next.ctype = CKind.switch ∧ next.closed = false))
    (hnd : next.damaged = false) (hcd : e.comp.damaged = false) :
    (⟨next, e.path ++ [next], e.wires ++ [w]⟩ : Entry) ∈
      entryPushes cs ws start e := by
  apply List.mem_filterMap.mpr
  refine ⟨(next, w), ?_, ?_⟩
  · apply List.mem_filterMap.mpr
    refine ⟨w, ?_, ?_⟩
    · apply List.mem_filter.mpr
      refine ⟨hwin, ?_⟩
      unfold getOtherComponent at hoth
      unfold connectsTo
      by_cases h1 : w.fromId = e.comp.id
      · simp [h1]
      · rw [if_neg h1] at hoth
        by_cases h2 : w.toId = e.comp.id
        · simp [h1, h2]
        · rw [if_neg h2] at hoth; exact absurd hoth (by simp)
    · rw [hoth]; rfl
  · simp only
    rw [if_neg hwu]
    rw [if_neg (by
      intro ⟨hmem, hncl⟩
      exact hncl (hrev hmem))]
    rw [if_neg hsw, if_neg (by simp [hnd]), if_neg (by simp [hcd])]

/-- Pushed entries keep the wire invariant and extend the wire list by
one. -/
theorem entryPushes_inv (cs : List Component) (ws : List Wire)
    (start : Component) (e e' : Entry) (hi : EntryInv ws e)
    (h : e' ∈ entryPushes cs ws start e) :
    EntryInv ws e' ∧ e'.wires.length = e.wires.length + 1 := by
  obtain ⟨next, w, hwin, _, hwu, _, _, _, _, rfl⟩ :=
    mem_entryPushes cs ws start e e' h
  refine ⟨⟨?_, ?_⟩, by simp⟩
  · simpa [List.nodup_append] using ⟨hi.1, hwu⟩
  · intro w' hw'
    rcases List.mem_append.mp hw' with h' | h'
    · exact hi.2 w' h'
    · rcases List.mem_singleton.mp h' with rfl
      exact hwin

/-- There are at most as many pushes as wires. -/
theorem entryPushes_length_le (cs : List Component) (ws : List Wire)
    (start : Component) (e : Entry) :
    (entryPushes cs ws start e).length ≤ ws.length := by
  calc (entryPushes cs ws start e).length
      ≤ (getAdjacentComponents cs ws e.comp).length :=
        List.length_filterMap_le _ _
    _ ≤ (ws.filter (fun w => connectsTo w e.comp)).length :=
        List.length_filterMap_le _ _
    _ ≤ ws.length := List.length_filter_le _ _

/-- Wires of a well-formed entry number at most the circuit's wires. -/
theorem EntryInv_length_le (ws : List Wire) (e : Entry) (hi : EntryInv ws e) :
    e.wires.length ≤ ws.length :=
  (hi.1.subperm (fun _ hw => hi.2 _ hw)).length_le

/-- Expanding an incomplete well-formed entry strictly shrinks the stack
measure. -/
theorem stackMeasure_expand_lt (cs : List Component) (ws : List Wire)
    (start : Component) (e : Entry) (rest : List Entry)
    (hi : EntryInv ws e) :
    stackMeasure ws.length ((entryPushes cs ws start e).reverse ++ rest) <
      stackMeasure ws.length (e :: rest) := by
  have hlen := EntryInv_length_le ws e hi
  have hsum : ((entryPushes cs ws start e).reverse.map
      (entryMeasure ws.length)).sum ≤
      (entryPushes cs ws start e).length *
        (ws.length + 1) ^ (ws.length - e.wires.length) := by
    have := List.sum_le_card_nsmul
      ((entryPushes cs ws start e).reverse.map (entryMeasure ws.length))
      ((ws.length + 1) ^ (ws.length - e.wires.length)) ?_
    · simpa [smul_eq_mul] using this
    · intro x hx
      obtain ⟨e', he', rfl⟩ := List.mem_map.mp hx
      obtain ⟨_, hlen'⟩ := entryPushes_inv cs ws start e e' hi
        (List.mem_reverse.mp he')
      unfold entryMeasure
      rw [hlen', Nat.succ_sub_succ]
  have hkey : (entryPushes cs ws start e).length *
      (ws.length + 1) ^ (ws.length - e.wires.length) <
      entryMeasure ws.length e := by
    unfold entryMeasure
    have h1 : (entryPushes cs ws start e).length *
        (ws.length + 1) ^ (ws.length - e.wires.length) <
        (ws.length + 1) * (ws.length + 1) ^ (ws.length - e.wires.length) := by
      apply Nat.mul_lt_mul_of_lt_of_le
      · exact Nat.lt_succ_of_le (entryPushes_length_le cs ws start e)
      · exact le_refl _
      · exact Nat.pos_pow_of_pos _ (Nat.succ_pos _)
    calc (entryPushes cs ws start e).length *
        (ws.length + 1) ^ (ws.length - e.wires.length)
        < (ws.length + 1) * (ws.length + 1) ^ (ws.length - e.wires.length) :=
          h1
      _ = (ws.length + 1) ^ (ws.length - e.wires.length + 1) := by
          rw [pow_succ, Nat.mul_comm]
      _ = (ws.length + 1) ^ (ws.length + 1 - e.wires.length) := by
          rw [Nat.succ_sub hlen]
  unfold stackMeasure
  simp only [List.map_append, List.sum_append, List.map_cons, List.sum_cons]
  omega



/-- Completeness of the stack machine: with enough fuel, every path
emitted from a well-formed stack entry is recorded. -/
theorem Reaches_mem_dfsLoop (cs : List Component) (ws : List Wire)
    (start : Component) (ends : List Component) :
    ∀ (fuel : Nat) (stack : List Entry) (acc : List PathRec) (e : Entry)
      (p : PathRec),
      Reaches cs ws start ends e p → e ∈ stack →
      (∀ e' ∈ stack, EntryInv ws e') →
      stackMeasure ws.length stack ≤ fuel →
      p ∈ dfsLoop cs ws start ends fuel stack acc := by
  intro fuel
  induction fuel with
  | zero =>
    intro stack acc e p hr hmem hinv hm
    exfalso
    have h1 : entryMeasure ws.length e ≤ stackMeasure ws.length stack := by
      unfold stackMeasure
      exact List.single_le_sum (fun x _ => Nat.zero_le x) _
        (List.mem_map_of_mem _ hmem)
    have h2 : 0 < entryMeasure ws.length e :=
      Nat.pos_pow_of_pos _ (Nat.succ_pos _)
    omega
  | succ fuel ih =>
    intro stack acc e p hr hmem hinv hm
    cases stack with
    | nil => cases hmem
    | cons x rest =>
      have hmrest : stackMeasure ws.length (x :: rest) =
          entryMeasure ws.length x + stackMeasure ws.length rest := by
        simp [stackMeasure]
      have hxpos : 0 < entryMeasure ws.length x :=
        Nat.pos_pow_of_pos _ (Nat.succ_pos _)
      rw [dfsLoop]
      by_cases hcx : entryComplete ends x
      · rw [if_pos hcx]
        rcases List.mem_cons.mp hmem with rfl | hmem'
        · cases hr with
          | done _ hcomp hchk =>
            rw [if_neg (by rw [hchk]; exact Bool.false_ne_true)]
            exact dfsLoop_acc_mono cs ws start ends fuel rest _ _
              (List.mem_append.mpr (Or.inr (List.mem_singleton.mpr rfl)))
          | step _ e' _ hncomp hmem2 h2 => exact absurd hcx hncomp
        · by_cases hchk : checkDiodeDirectionInPath x.path x.wires = true
          · rw [if_pos hchk]
            exact ih rest acc e p hr hmem'
              (fun e'' he'' => hinv e'' (List.mem_cons_of_mem _ he''))
              (by omega)
          · rw [if_neg hchk]
            exact ih rest _ e p hr hmem'
              (fun e'' he'' => hinv e'' (List.mem_cons_of_mem _ he''))
              (by omega)
      · rw [if_neg hcx]
        have hinvx : EntryInv ws x := hinv x (List.mem_cons_self _ _)
        have hmlt := stackMeasure_expand_lt cs ws start x rest hinvx
        have hinv' : ∀ e'' ∈ (entryPushes cs ws start x).reverse ++ rest,
            EntryInv ws e'' := by
          intro e'' he''
          rcases List.mem_append.mp he'' with h' | h'
          · exact (entryPushes_inv cs ws start x e'' hinvx
              (List.mem_reverse.mp h')).1
          · exact hinv e'' (List.mem_cons_of_mem _ h')
        rcases List.mem_cons.mp hmem with rfl | hmem'
        · cases hr with
          | done _ hcomp _ => exact absurd hcomp hcx
          | step _ e' _ _ hpmem h2 =>
            exact ih _ acc e' p h2
              (List.mem_append.mpr (Or.inl (List.mem_reverse.mpr hpmem)))
              hinv' (by omega)
        · exact ih _ acc e p hr
            (List.mem_append.mpr (Or.inr hmem')) hinv' (by omega)

/-- Membership in a fold of list appends. -/
theorem mem_foldl_append {α β : Type} (f : β → List α) (l : List β) :
    ∀ (acc : List α) (p : α),
      (p ∈ l.foldl (fun a b => a ++ f b) acc ↔ p ∈ acc ∨ ∃ b ∈ l, p ∈ f b) := by
  induction l with
  | nil => intro acc p; simp
  | cons b l ih =>
    intro acc p
    rw [List.foldl_cons, ih]
    constructor
    · rintro (h | h)
      · rcases List.mem_append.mp h with h' | h'
        · exact Or.inl h'
        · exact Or.inr ⟨b, List.mem_cons_self _ _, h'⟩
      · obtain ⟨b', hb', hp⟩ := h
        exact Or.inr ⟨b', List.mem_cons_of_mem _ hb', hp⟩
    · rintro (h | ⟨b', hb', hp⟩)
      · exact Or.inl (List.mem_append.mpr (Or.inl h))
      · rcases List.mem_cons.mp hb' with rfl | hb''
        · exact Or.inl (List.mem_append.mpr (Or.inr hp))
        · exact Or.inr ⟨b', hb'', hp⟩

/-- The ends list used by findAllPaths for a battery. -/
def endsFor (cs : List Component) (b : Component) : List Component :=
  findGrounds cs ++ [b]

/-- Characterization of findAllPaths: a path is returned exactly when some
battery's search emits it. -/
theorem mem_findAllPaths (cs : List Component) (ws : List Wire)
    (p : PathRec) :
    p ∈ findAllPaths cs ws ↔
      ∃ b ∈ findBatteries cs,
        Reaches cs ws b (endsFor cs b) ⟨b, [b], []⟩ p := by
  unfold findAllPaths
  rw [mem_foldl_append (fun b => findPathsDFS cs ws b (findGrounds cs ++ [b]))
    (findBatteries cs) [] p]
  simp only [List.not_mem_nil, false_or]
  constructor
  · rintro ⟨b, hb, hp⟩
    rcases mem_dfsLoop_sound cs ws b (findGrounds cs ++ [b]) _ _ _ _ hp with
      h | ⟨e, he, hr⟩
    · cases h
    · rcases List.mem_singleton.mp he with rfl
      exact ⟨b, hb, hr⟩
  · rintro ⟨b, hb, hr⟩
    refine ⟨b, hb, ?_⟩
    apply Reaches_mem_dfsLoop cs ws b (findGrounds cs ++ [b]) _ _ _ _ _ hr
      (List.mem_singleton.mpr rfl)
    · intro e' he'
      rcases List.mem_singleton.mp he' with rfl
      exact ⟨List.nodup_nil, by intro w hw; cases hw⟩
    · unfold stackMeasure entryMeasure
      simp



/-- Unfolding of the diode-direction filter. -/
theorem checkDiode_eq_false_iff (path : List Component) (wires : List Wire) :
    checkDiodeDirectionInPath path wires = false ↔
      ∀ c ∈ path, c.ctype = CKind.diode →
        ∀ w ∈ wires, ¬(w.toId = c.id ∧ w.toTerm = "cathode") := by
  unfold checkDiodeDirectionInPath
  rw [List.any_eq_false]
  constructor
  · intro h c hc hk w hw hand
    obtain ⟨ht, hterm⟩ := hand
    have h2 := h c hc
    simp only [Bool.and_eq_true, decide_eq_true_eq, List.any_eq_true,
      not_and, not_exists, not_forall] at h2
    exact h2 hk w (List.mem_filter.mpr ⟨hw, by simp [ht]⟩) ht hterm
  · intro h c hc
    simp only [Bool.and_eq_true, decide_eq_true_eq, List.any_eq_true,
      not_and, not_exists, not_forall]
    intro hk w hwf ht hterm
    obtain ⟨hw, _⟩ := List.mem_filter.mp hwf
    exact h c hc hk w hw ⟨ht, hterm⟩

/-- Claim C4 (amended): the reverse-bias filter is applied to the stored
orientation of each wire, not to the traversal direction: a completed
path is discarded exactly when some wire of the path has its stored `to`
endpoint on the cathode terminal of a diode of the path.  Consequently no
returned path contains a wire whose stored `to` endpoint is the cathode
of a diode on the path (a path that enters a cathode through a wire
stored cathode-first is NOT discarded; see the counterexample). -/
theorem c4_reverse_diode_filter (cs : List Component) (ws : List Wire)
    (p : PathRec) (hp : p ∈ findAllPaths cs ws) :
    ∀ c ∈ p.components, c.ctype = CKind.diode →
      ∀ w ∈ p.wires, ¬(w.toId = c.id ∧ w.toTerm = "cathode") := by
  obtain ⟨b, _, hr⟩ := (mem_findAllPaths cs ws p).mp hp
  exact (checkDiode_eq_false_iff p.components p.wires).mp
    (Reaches_check cs ws b (endsFor cs b) _ p hr)

/-- A forward-biased diode circuit: battery to anode, cathode to ground,
both wires stored in traversal orientation. -/
def forwardDiodeState : SimState :=
  { components := [mkComponent CKind.battery 1 0 0, diode2, ground3],
    wires := [{ id := 10, fromId := 1, fromTerm := "positive",
                toId := 2, toTerm := "anode" },
              { id := 11, fromId := 2, fromTerm := "cathode",
                toId := 3, toTerm := "top" }] }

/-- The single path returned on the forward-biased diode circuit. -/
def forwardDiodePath : PathRec :=
  ⟨[mkComponent CKind.battery 1 0 0, diode2, ground3],
   [{ id := 10, fromId := 1, fromTerm := "positive",
      toId := 2, toTerm := "anode" },
    { id := 11, fromId := 2, fromTerm := "cathode",
      toId := 3, toTerm := "top" }]⟩

/-- Witness for Claim C4's theorem on the forward-biased diode circuit. -/
theorem c4_reverse_diode_filter_witness :
    (forwardDiodePath ∈ findAllPaths forwardDiodeState.components
        forwardDiodeState.wires)
  ∧ (diode2 ∈ forwardDiodePath.components)
  ∧ diode2.ctype = CKind.diode
  ∧ (∀ w ∈ forwardDiodePath.wires,
      ¬(w.toId = diode2.id ∧ w.toTerm = "cathode")) :=
  ⟨by decide, by decide, by decide,
   c4_reverse_diode_filter forwardDiodeState.components
     forwardDiodeState.wires forwardDiodePath (by decide) diode2
     (by decide) (by decide)⟩



/-- A component found by id carries that id. -/
theorem findComp_id (cs : List Component) (i : Nat) (c : Component)
    (h : findComp cs i = some c) : c.id = i := by
  have := List.find?_some h
  simpa using this

/-- A component found by id is in the collection. -/
theorem findComp_mem (cs : List Component) (i : Nat) (c : Component)
    (h : findComp cs i = some c) : c ∈ cs :=
  List.mem_of_find?_eq_some h

/-- A wire's other endpoint resolves to a collection member. -/
theorem getOtherComponent_mem (cs : List Component) (w : Wire)
    (c o : Component) (h : getOtherComponent cs w c = some o) : o ∈ cs := by
  unfold getOtherComponent at h
  split_ifs at h
  · exact findComp_mem _ _ _ h
  · exact findComp_mem _ _ _ h

/-- Every component of an emitted path lies in the collection and is
undamaged, provided the seed entry's path does. -/
theorem Reaches_members (cs : List Component) (ws : List Wire)
    (start : Component) (ends : List Component) (e : Entry) (p : PathRec)
    (h : Reaches cs ws start ends e p)
    (hmem : ∀ m ∈ e.path, m ∈ cs)
    (hdam : ∀ m ∈ e.path, m.damaged = false) :
    ∀ m ∈ p.components, m ∈ cs ∧ m.damaged = false := by
  induction h with
  | done e hcomp hchk =>
    intro m hm
    exact ⟨hmem m hm, hdam m hm⟩
  | step e e' p hncomp hpm h ih =>
    obtain ⟨next, w, hwin, hoth, hwu, hrev, hsw, hnd, hcd, rfl⟩ :=
      mem_entryPushes cs ws start e e' hpm
    apply ih
    · intro m hm
      rcases List.mem_append.mp hm with h' | h'
      · exact hmem m h'
      · rcases List.mem_singleton.mp h' with rfl
        exact getOtherComponent_mem cs w e.comp m hoth
    · intro m hm
      rcases List.mem_append.mp hm with h' | h'
      · exact hdam m h'
      · rcases List.mem_singleton.mp h' with rfl
        exact hnd

/-- A damaged source yields no paths at all. -/
theorem Reaches_not_damaged_start (cs : List Component) (ws : List Wire)
    (start : Component) (ends : List Component) (p : PathRec)
    (hd : start.damaged = true) :
    ¬ Reaches cs ws start ends ⟨start, [start], []⟩ p := by
  intro h
  cases h with
  | done _ hcomp _ =>
    obtain ⟨_, hlen⟩ := hcomp
    simp at hlen
  | step _ e' _ _ hmem _ =>
    obtain ⟨_, _, _, _, _, _, _, _, hcd, _⟩ :=
      mem_entryPushes cs ws start _ e' hmem
    rw [hd] at hcd
    cases hcd

/-- All members of a returned path are undamaged collection members. -/
theorem mem_findAllPaths_members (cs : List Component) (ws : List Wire)
    (p : PathRec) (hp : p ∈ findAllPaths cs ws) :
    ∀ m ∈ p.components, m ∈ cs ∧ m.damaged = false := by
  obtain ⟨b, hb, hr⟩ := (mem_findAllPaths cs ws p).mp hp
  obtain ⟨hbcs, _⟩ := List.mem_filter.mp hb
  by_cases hbd : b.damaged = true
  · exact absurd hr (Reaches_not_damaged_start cs ws b (endsFor cs b) p hbd)
  · apply Reaches_members cs ws b (endsFor cs b) _ p hr
    · intro m hm
      rcases List.mem_singleton.mp hm with rfl
      exact hbcs
    · intro m hm
      rcases List.mem_singleton.mp hm with rfl
      exact Bool.not_eq_true _ ▸ hbd



/-- updateComp leaves a slot holding another id untouched. -/
theorem updateComp_not_id (cs : List Component) (j : Nat)
    (f : Component → Component) (n : Nat) (c0 : Component)
    (h : cs[n]? = some c0) (hid : c0.id ≠ j) :
    (updateComp cs j f)[n]? = some c0 := by
  unfold updateComp
  rw [List.getElem?_map, h, Option.map_some', if_neg hid]

/-- A fold of updateComp over foreign ids leaves the slot untouched. -/
theorem foldl_updateComp_not_mem (l : List Nat)
    (f : Component → Component) :
    ∀ (cs : List Component) (n : Nat) (c0 : Component),
      cs[n]? = some c0 → c0.id ∉ l →
      (l.foldl (fun a i => updateComp a i f) cs)[n]? = some c0 := by
  induction l with
  | nil => intro cs n c0 h _; exact h
  | cons i l ih =>
    intro cs n c0 h hid
    rw [List.foldl_cons]
    exact ih _ n c0
      (updateComp_not_id cs i f n c0 h
        (fun hh => hid (hh ▸ List.mem_cons_self _ _)))
      (fun hm => hid (List.mem_cons_of_mem _ hm))

/-- The voltage-drop walk leaves slots with foreign ids untouched. -/
theorem foldl_assignVoltage_not_mem (cur : ℚ) (l : List Nat) :
    ∀ (cs : List Component) (n : Nat) (c0 : Component),
      cs[n]? = some c0 → c0.id ∉ l →
      (l.foldl (assignVoltageStep cur) cs)[n]? = some c0 := by
  induction l with
  | nil => intro cs n c0 h _; exact h
  | cons i l ih =>
    intro cs n c0 h hid
    rw [List.foldl_cons]
    have hne : c0.id ≠ i := fun hh => hid (hh ▸ List.mem_cons_self _ _)
    have hstep : (assignVoltageStep cur cs i)[n]? = some c0 := by
      unfold assignVoltageStep
      cases hb : findComp cs i with
      | none => exact h
      | some comp =>
        dsimp only []
        split_ifs <;>
          first
            | exact h
            | exact updateComp_not_id cs i _ n c0 h hne
    exact ih _ n c0 hstep (fun hm => hid (List.mem_cons_of_mem _ hm))

/-- The limit check leaves slots with foreign ids untouched. -/
theorem checkComponentLimits_not_mem (l : List Nat) :
    ∀ (s : SimState) (n : Nat) (c0 : Component),
      s.components[n]? = some c0 → c0.id ∉ l →
      (checkComponentLimits s l).components[n]? = some c0 := by
  induction l with
  | nil => intro s n c0 h _; exact h
  | cons i l ih =>
    intro s n c0 h hid
    have hne : c0.id ≠ i := fun hh => hid (hh ▸ List.mem_cons_self _ _)
    have htail : c0.id ∉ l := fun hm => hid (List.mem_cons_of_mem _ hm)
    unfold checkComponentLimits
    rw [List.foldl_cons]
    show (checkComponentLimits _ l).components[n]? = some c0
    apply ih _ n c0 _ htail
    cases hb : findComp s.components i with
    | none => exact h
    | some c =>
      dsimp only []
      split_ifs <;>
        first
          | exact h
          | exact updateComp_not_id s.components i _ n c0 h hne

/-- simulatePath writes only onto the slots of its own path ids. -/
theorem simulatePath_not_mem (s : SimState) (pIds wIds : List Nat) (n : Nat)
    (c0 : Component) (h : s.components[n]? = some c0)
    (hid : c0.id ∉ pIds) :
    (simulatePath s pIds wIds).components[n]? = some c0 := by
  unfold simulatePath
  dsimp only []
  cases hb : (pIds.filterMap (findComp s.components)).find?
      (fun c => c.ctype = CKind.battery) with
  | none => exact h
  | some battery =>
    have hbid : battery.id ∈ pIds := by
      have hmem := List.mem_of_find?_eq_some hb
      obtain ⟨j, hj, hfind⟩ := List.mem_filterMap.mp hmem
      rw [findComp_id _ _ _ hfind]
      exact hj
    simp only
    apply checkComponentLimits_not_mem pIds _ n c0 _ hid
    apply updateComp_not_id _ battery.id _ n c0 _
      (fun hh => hid (hh ▸ hbid))
    apply foldl_assignVoltage_not_mem _ _ _ n c0 _
      (fun hm => hid (List.mem_of_mem_drop hm))
    exact foldl_updateComp_not_mem pIds _ s.components n c0 h hid

/-- The path-by-path simulation fold leaves a slot untouched when its id
appears on no path. -/
theorem foldl_simulatePaths_not_mem (paths : List PathRec) :
    ∀ (s : SimState) (n : Nat) (c0 : Component),
      s.components[n]? = some c0 →
      (∀ p ∈ paths, c0.id ∉ p.components.map (fun c => c.id)) →
      ((paths.foldl (fun s p =>
          simulatePath s (p.components.map (fun c => c.id))
            (p.wires.map (fun w => w.id))) s).components)[n]? = some c0 := by
  induction paths with
  | nil => intro s n c0 h _; exact h
  | cons p l ih =>
    intro s n c0 h hall
    rw [List.foldl_cons]
    exact ih _ n c0
      (simulatePath_not_mem s _ _ n c0 h (hall p (List.mem_cons_self _ _)))
      (fun q hq => hall q (List.mem_cons_of_mem _ hq))



/-- The damage-preserving reset keeps the id. -/
theorem resetKeep_id (c : Component) :
    (resetComponentKeepDamage c).id = c.id := by
  unfold resetComponentKeepDamage
  by_cases h : c.damaged <;> cases hct : c.ctype <;>
    simp [h, componentReset, hct]

/-- The damage-preserving reset keeps the damage flag. -/
theorem resetKeep_damaged (c : Component) :
    (resetComponentKeepDamage c).damaged = c.damaged := by
  unfold resetComponentKeepDamage
  by_cases h : c.damaged <;> cases hct : c.ctype <;>
    simp [h, componentReset, hct]

/-- The damage-preserving reset zeroes the current. -/
theorem resetKeep_current (c : Component) :
    (resetComponentKeepDamage c).current = 0 := by
  unfold resetComponentKeepDamage
  by_cases h : c.damaged <;> cases hct : c.ctype <;>
    simp [h, componentReset, hct]

/-- Claim C8 (amended): after every simulate call, every component whose
damaged flag was already true when the call began has current equal to
zero — the per-tick reset zeroes its current, no returned path contains a
damaged component (damaged sources yield no paths at all), and path
currents are written only onto path members, so such a component is never
overwritten.  (A component that becomes damaged during the call can still
end with nonzero current when a later already-enumerated path shares it;
see the counterexample.) -/
theorem c8_pre_damaged_current_zero (st : SimState)
    (hnd : (st.components.map (fun c => c.id)).Nodup)
    (n : Nat) (c : Component)
    (hc : st.components[n]? = some c) (hd : c.damaged = true) :
    ∃ c', (simulate st).components[n]? = some c' ∧ c'.id = c.id ∧
      c'.damaged = true ∧ c'.current = 0 := by
  have hreset : (resetAllComponents st).components[n]? =
      some (resetComponentKeepDamage c) := by
    show (st.components.map resetComponentKeepDamage)[n]? = _
    rw [List.getElem?_map, hc, Option.map_some']
  have hd1 : (resetComponentKeepDamage c).damaged = true := by
    rw [resetKeep_damaged, hd]
  unfold simulate
  by_cases hrun : st.running = false
  · rw [if_pos hrun]
    exact ⟨_, hreset, resetKeep_id c, hd1, resetKeep_current c⟩
  · rw [if_neg hrun]
    dsimp only []
    have hnd1 : ((resetAllComponents st).components.map
        (fun x => x.id)).Nodup := by
      show (((st.components.map resetComponentKeepDamage)).map
        (fun x => x.id)).Nodup
      rw [List.map_map]
      have he : ((fun x : Component => x.id) ∘ resetComponentKeepDamage) =
          (fun x : Component => x.id) := funext (fun x => resetKeep_id x)
      rw [he]
      exact hnd
    have hkey : ∀ p ∈ findAllPaths (resetAllComponents st).components
        (resetAllComponents st).wires,
        (resetComponentKeepDamage c).id ∉
          p.components.map (fun c => c.id) := by
      intro p hp hin
      obtain ⟨m, hm, hmid⟩ := List.mem_map.mp hin
      obtain ⟨hmcs, hmd⟩ := mem_findAllPaths_members _ _ p hp m hm
      have hc1mem : resetComponentKeepDamage c ∈
          (resetAllComponents st).components := List.getElem?_mem hreset
      have heq : m = resetComponentKeepDamage c :=
        List.inj_on_of_nodup_map hnd1 hmcs hc1mem hmid
      rw [heq, hd1] at hmd
      cases hmd
    exact ⟨resetComponentKeepDamage c,
      foldl_simulatePaths_not_mem _ _ n _ hreset hkey,
      resetKeep_id c, hd1, resetKeep_current c⟩

/-- The LED circuit with the LED already damaged before the tick. -/
def preDamagedLedState : SimState :=
  { components := [battery9V, { led2 with damaged := true }, ground3],
    wires := [wireBatLed, wireLedGnd], running := true }

/-- Witness for Claim C8's theorem: the pre-damaged LED still has zero
current after the tick. -/
theorem c8_pre_damaged_current_zero_witness :
    ((preDamagedLedState.components.map (fun c => c.id)).Nodup)
  ∧ (preDamagedLedState.components[1]? = some { led2 with damaged := true })
  ∧ ({ led2 with damaged := true } : Component).damaged = true
  ∧ (∃ c', (simulate preDamagedLedState).components[1]? = some c' ∧
      c'.id = ({ led2 with damaged := true } : Component).id ∧
      c'.damaged = true ∧ c'.current = 0) :=
  ⟨by decide, by decide, by decide,
   c8_pre_damaged_current_zero preDamagedLedState (by decide) 1
     { led2 with damaged := true } (by decide) (by decide)⟩



/-! ## Loop-path reversal (Claim C9) -/


/-- In a duplicate-free list, the element at an index does not occur at any
earlier position. -/
theorem nodup_not_mem_take {α : Type} (l : List α) (hnd : l.Nodup)
    (i : Nat) (x : α) (h : l[i]? = some x) : x ∉ l.take i := by
  intro hmem
  obtain ⟨j, hj⟩ := List.mem_iff_getElem?.mp hmem
  have hjlen : j < (l.take i).length := by
    obtain ⟨hb, _⟩ := List.getElem?_eq_some_iff.mp hj
    exact hb
  have hji : j < i := by
    rw [List.length_take] at hjlen
    omega
  rw [List.getElem?_take_of_lt hji] at hj
  have hilen : i < l.length := (List.getElem?_eq_some_iff.mp h).1
  exact List.nodup_iff_getElem?_ne_getElem?.mp hnd j i hji hilen (hj.trans h.symm)

/-- Declarative characterization of the path records emitted by the DFS from
a given source: an alternating component/wire sequence, starting at the
source, ending at a terminus, following the wire adjacency, using each wire
once, touching no terminus in between, revisiting no component except that
the final component may close the loop back onto the source, avoiding
damaged components and open switches, and passing the diode filter. -/
structure ValidPathFrom (cs : List Component) (ws : List Wire)
    (start : Component) (ends : List Component) (p : PathRec) : Prop where
  hlen : p.components.length = p.wires.length + 1
  hn : 1 ≤ p.wires.length
  hhead : p.components.head? = some start
  hlast : ∀ c, p.components.getLast? = some c → c ∈ ends
  hadj : ∀ i, i < p.wires.length → ∃ a w b, p.components[i]? = some a ∧
    p.wires[i]? = some w ∧ p.components[i + 1]? = some b ∧ w ∈ ws ∧
    getOtherComponent cs w a = some b
  hwnd : p.wires.Nodup
  hmid : ∀ i c, 1 ≤ i → i < p.wires.length → p.components[i]? = some c →
    c ∉ ends
  hpre : p.components.dropLast.Nodup
  hfin : ∀ c, p.components.getLast? = some c →
    c ∉ p.components.dropLast ∨ (c = start ∧ 2 ≤ p.wires.length)
  hdam : ∀ c ∈ p.components, c.damaged = false
  hsw : ∀ i c, 1 ≤ i → p.components[i]? = some c →
    ¬(c.ctype = CKind.switch ∧ c.closed = false)
  hchk : checkDiodeDirectionInPath p.components p.wires = false

/-- Invariant of a live DFS stack entry: its accumulated path is a valid
partial traversal from the source. -/
structure EntryOK (cs : List Component) (ws : List Wire) (start : Component)
    (ends : List Component) (e : Entry) : Prop where
  hlen : e.path.length = e.wires.length + 1
  hhead : e.path.head? = some start
  hlast : e.path.getLast? = some e.comp
  hadj : ∀ i, i < e.wires.length → ∃ a w b, e.path[i]? = some a ∧
    e.wires[i]? = some w ∧ e.path[i + 1]? = some b ∧ w ∈ ws ∧
    getOtherComponent cs w a = some b
  hwnd : e.wires.Nodup
  hmid : ∀ i c, 1 ≤ i → i < e.wires.length → e.path[i]? = some c → c ∉ ends
  hpre : e.path.dropLast.Nodup
  hfin : e.comp ∉ e.path.dropLast ∨ (e.comp = start ∧ 2 ≤ e.wires.length)
  hdam : 1 ≤ e.wires.length → ∀ c ∈ e.path, c.damaged = false
  hsw : ∀ i c, 1 ≤ i → e.path[i]? = some c →
    ¬(c.ctype = CKind.switch ∧ c.closed = false)

/-- The initial stack entry of findPathsDFS satisfies the entry invariant. -/
theorem EntryOK_init (cs : List Component) (ws : List Wire)
    (start : Component) (ends : List Component) :
    EntryOK cs ws start ends ⟨start, [start], []⟩ := by
  refine ⟨rfl, rfl, rfl, ?_, List.nodup_nil, ?_, List.nodup_nil, ?_, ?_, ?_⟩
  · intro i hi
    cases hi
  · intro i c h1 h2
    cases h2
  · exact Or.inl (by intro h; cases h)
  · intro h
    cases h
  · intro i c h1 hc
    rw [show ([start] : List Component)[i]? = none by
      apply List.getElem?_eq_none
      simpa using h1] at hc
    cases hc

/-- Every component of a valid path lies in the shared collection. -/
theorem valid_mem_cs (cs : List Component) (ws : List Wire)
    (start : Component) (ends : List Component) (p : PathRec)
    (hv : ValidPathFrom cs ws start ends p) (hscs : start ∈ cs) :
    ∀ (i : Nat) (c : Component), p.components[i]? = some c → c ∈ cs := by
  intro i c hc
  cases i with
  | zero =>
    rw [← List.head?_eq_getElem?, hv.hhead] at hc
    rw [← Option.some_inj.mp hc]
    exact hscs
  | succ i =>
    have hb : i + 1 < p.components.length := (List.getElem?_eq_some_iff.mp hc).1
    have hi : i < p.wires.length := by
      rw [hv.hlen] at hb
      omega
    obtain ⟨a, w, b, _, _, hb2, _, hoth⟩ := hv.hadj i hi
    rw [hc] at hb2
    rw [Option.some_inj.mp hb2]
    exact getOtherComponent_mem cs w a b hoth

/-- A valid loop path (one that returns to its source) uses at least two
wires. -/
theorem valid_loop_two (cs : List Component) (ws : List Wire)
    (start : Component) (ends : List Component) (p : PathRec)
    (hv : ValidPathFrom cs ws start ends p)
    (hls : ∀ c, p.components.getLast? = some c → c = start) :
    2 ≤ p.wires.length := by
  have hn1 := hv.hn
  have hne : p.components.length - 1 = p.wires.length := by
    rw [hv.hlen, Nat.add_sub_cancel]
  cases hl : p.components[p.wires.length]? with
  | none =>
    have := List.getElem?_eq_none_iff.mp hl
    rw [hv.hlen] at this
    omega
  | some c =>
    have hlq : p.components.getLast? = some c := by
      rw [List.getLast?_eq_getElem?, hne]
      exact hl
    have hcs : c = start := hls c hlq
    rcases hv.hfin c hlq with h | ⟨_, h2⟩
    · exfalso
      apply h
      have h0 : p.components[0]? = some start := by
        rw [← List.head?_eq_getElem?]
        exact hv.hhead
      rw [List.dropLast_eq_take, hv.hlen, Nat.add_sub_cancel, hcs]
      have ht : (p.components.take p.wires.length)[0]? =
          p.components[0]? := List.getElem?_take_of_lt (by omega)
      exact List.getElem?_mem (ht.trans h0)
    · exact h2

/-- Consecutive components of a valid loop path are distinct values. -/
theorem valid_consec_ne (cs : List Component) (ws : List Wire)
    (start : Component) (ends : List Component) (p : PathRec)
    (hv : ValidPathFrom cs ws start ends p)
    (hls : ∀ c, p.components.getLast? = some c → c = start) :
    ∀ k a b, k + 1 ≤ p.wires.length → p.components[k]? = some a →
      p.components[k + 1]? = some b → a ≠ b := by
  intro k a b hk ha hb heq
  have hn2 := valid_loop_two cs ws start ends p hv hls
  have hdl : p.components.dropLast = p.components.take p.wires.length := by
    rw [List.dropLast_eq_take, hv.hlen, Nat.add_sub_cancel]
  have hdln : (p.components.take p.wires.length).Nodup := by
    rw [← hdl]
    exact hv.hpre
  have htlen : (p.components.take p.wires.length).length =
      p.wires.length := by
    rw [List.length_take, hv.hlen]
    omega
  by_cases hin : k + 1 < p.wires.length
  · have h1 : (p.components.take p.wires.length)[k]? = some a := by
      rw [List.getElem?_take_of_lt (by omega)]
      exact ha
    have h2 : (p.components.take p.wires.length)[k + 1]? = some b := by
      rw [List.getElem?_take_of_lt hin]
      exact hb
    exact List.nodup_iff_getElem?_ne_getElem?.mp hdln k (k + 1)
      (by omega) (by omega) (h1.trans (heq ▸ h2.symm))
  · have hkn : k + 1 = p.wires.length := by omega
    have hlq : p.components.getLast? = some b := by
      rw [List.getLast?_eq_getElem?, hv.hlen]
      simpa [hkn] using hb
    have hbs : b = start := hls b hlq
    have h0 : (p.components.take p.wires.length)[0]? = some start := by
      rw [List.getElem?_take_of_lt (by omega), ← List.head?_eq_getElem?]
      exact hv.hhead
    have hka : (p.components.take p.wires.length)[k]? = some start := by
      rw [List.getElem?_take_of_lt (by omega)]
      rw [ha]
      rw [heq, hbs]
    have hk1 : 1 ≤ k := by omega
    exact List.nodup_iff_getElem?_ne_getElem?.mp hdln 0 k
      (by omega) (by omega) (h0.trans hka.symm)

/-- Under duplicate-free ids, looking a member component up by its own id
returns that member. -/
theorem findComp_self (cs : List Component)
    (hnd : (cs.map (fun c => c.id)).Nodup) (a : Component) (ha : a ∈ cs) :
    findComp cs a.id = some a := by
  cases h : findComp cs a.id with
  | none =>
    exfalso
    have := List.find?_eq_none.mp h a ha
    simp at this
  | some c =>
    have hc := findComp_id _ _ _ h
    have hmem := findComp_mem _ _ _ h
    rw [List.inj_on_of_nodup_map hnd hmem ha hc]

/-- Under duplicate-free ids, a wire's other-endpoint relation is
symmetric. -/
theorem getOtherComponent_symm (cs : List Component)
    (hnd : (cs.map (fun c => c.id)).Nodup) (w : Wire) (a b : Component)
    (ha : a ∈ cs) (hab : a.id ≠ b.id)
    (h : getOtherComponent cs w a = some b) :
    getOtherComponent cs w b = some a := by
  unfold getOtherComponent at h ⊢
  by_cases h1 : w.fromId = a.id
  · rw [if_pos h1] at h
    have hb := findComp_id _ _ _ h
    rw [if_neg (by rw [h1]; exact hab), if_pos hb.symm, h1]
    exact findComp_self cs hnd a ha
  · rw [if_neg h1] at h
    by_cases h2 : w.toId = a.id
    · rw [if_pos h2] at h
      have hb := findComp_id _ _ _ h
      rw [if_pos hb.symm, h2]
      exact findComp_self cs hnd a ha
    · rw [if_neg h2] at h
      cases h

/-- The diode-direction filter only inspects which components and wires are
present, so it is invariant under reversing both lists. -/
theorem checkDiode_reverse (path : List Component) (wires : List Wire) :
    checkDiodeDirectionInPath path.reverse wires.reverse =
      checkDiodeDirectionInPath path wires := by
  unfold checkDiodeDirectionInPath
  rw [List.any_reverse]
  congr 1
  funext c
  rw [List.filter_reverse, List.any_reverse]

/-- Expanding an incomplete invariant-satisfying entry preserves the entry
invariant. -/
theorem EntryOK_step (cs : List Component) (ws : List Wire)
    (start : Component) (ends : List Component) (hse : start ∈ ends)
    (e e' : Entry) (hncomp : ¬ entryComplete ends e)
    (hok : EntryOK cs ws start ends e)
    (hmem : e' ∈ entryPushes cs ws start e) :
    EntryOK cs ws start ends e' := by
  obtain ⟨next, w, hwin, hoth, hwu, hrev, hsw2, hnd2, hcd, rfl⟩ :=
    mem_entryPushes cs ws start e e' hmem
  have hplen := hok.hlen
  have hplast_idx : e.path[e.wires.length]? = some e.comp := by
    have h1 := hok.hlast
    rw [List.getLast?_eq_getElem?, hok.hlen, Nat.add_sub_cancel] at h1
    exact h1
  have hpne : e.path ≠ [] := by
    intro h
    rw [h] at hplen
    simp at hplen
  have hpathnodup : e.path.Nodup := by
    rcases hok.hfin with hl | ⟨hcs, hk2⟩
    · have hgl : e.path.getLast hpne = e.comp := by
        have h2 := List.getLast?_eq_getLast e.path hpne
        rw [hok.hlast] at h2
        exact (Option.some_inj.mp h2).symm
      rw [← List.dropLast_concat_getLast hpne, hgl]
      simpa [List.nodup_append] using ⟨hok.hpre, hl⟩
    · exfalso
      apply hncomp
      refine ⟨hcs ▸ hse, ?_⟩
      rw [hplen]
      omega
  refine ⟨?_, ?_, ?_, ?_, ?_, ?_, ?_, ?_, ?_, ?_⟩
  · simp [hok.hlen]
  · simp [List.head?_append, hok.hhead]
  · exact List.getLast?_concat _
  · intro i hi
    have hi2 : i < e.wires.length + 1 := by
      simpa using hi
    by_cases hik : i < e.wires.length
    · obtain ⟨a, w2, b, ha, hw2, hb, hw2in, hoth2⟩ := hok.hadj i hik
      refine ⟨a, w2, b, ?_, ?_, ?_, hw2in, hoth2⟩
      · rw [List.getElem?_append_left (by omega)]
        exact ha
      · rw [List.getElem?_append_left (by omega)]
        exact hw2
      · rw [List.getElem?_append_left (by omega)]
        exact hb
    · have hieq : i = e.wires.length := by omega
      subst hieq
      refine ⟨e.comp, w, next, ?_, ?_, ?_, hwin, hoth⟩
      · rw [List.getElem?_append_left (by omega)]
        exact hplast_idx
      · exact List.getElem?_concat_length _ _
      · rw [show e.wires.length + 1 = e.path.length from hplen.symm]
        exact List.getElem?_concat_length _ _
  · simpa [List.nodup_append] using ⟨hok.hwnd, hwu⟩
  · intro i c h1 hi hc
    have hi2 : i < e.wires.length + 1 := by
      simpa using hi
    by_cases hik : i < e.wires.length
    · rw [List.getElem?_append_left (by omega)] at hc
      exact hok.hmid i c h1 hik hc
    · have hieq : i = e.wires.length := by omega
      subst hieq
      rw [List.getElem?_append_left (by omega), hplast_idx] at hc
      intro hce
      apply hncomp
      refine ⟨?_, ?_⟩
      · rw [Option.some_inj.mp hc]
        exact hce
      · rw [hplen]
        omega
  · rw [List.dropLast_concat]
    exact hpathnodup
  · rw [List.dropLast_concat]
    by_cases hmem2 : next ∈ e.path
    · obtain ⟨hns, hlen2⟩ := hrev hmem2
      refine Or.inr ⟨hns, ?_⟩
      have h1 := hok.hlen
      simp only [List.length_append, List.length_cons, List.length_nil]
      omega
    · exact Or.inl hmem2
  · intro _ c hc
    rcases List.mem_append.mp hc with h2 | h2
    · by_cases hk0 : 1 ≤ e.wires.length
      · exact hok.hdam hk0 c h2
      · have hk1 : e.path.length = 1 := by omega
        obtain ⟨a, haeq⟩ := List.length_eq_one.mp hk1
        have hac : a = e.comp := by
          have h3 := hplast_idx
          rw [haeq, show e.wires.length = 0 from by omega] at h3
          exact Option.some_inj.mp h3
        rw [haeq, hac] at h2
        rw [List.mem_singleton.mp h2]
        exact hcd
    · rw [List.mem_singleton.mp h2]
      exact hnd2
  · intro i c h1 hc
    by_cases hik : i < e.path.length
    · rw [List.getElem?_append_left hik] at hc
      exact hok.hsw i c h1 hc
    · have hieq : i = e.path.length := by
        have hb := (List.getElem?_eq_some_iff.mp hc).1
        simp only [List.length_append, List.length_cons,
          List.length_nil] at hb
        omega
      subst hieq
      rw [List.getElem?_concat_length] at hc
      rw [← Option.some_inj.mp hc]
      exact hsw2

/-- Every path the DFS emits from an invariant-satisfying entry is a valid
path from the source. -/
theorem Reaches_valid (cs : List Component) (ws : List Wire)
    (start : Component) (ends : List Component) (hse : start ∈ ends)
    (e : Entry) (p : PathRec) (h : Reaches cs ws start ends e p)
    (hok : EntryOK cs ws start ends e) :
    ValidPathFrom cs ws start ends p := by
  induction h with
  | done e hcomp hchk =>
    obtain ⟨hce, hlen1⟩ := hcomp
    have h1 := hok.hlen
    have hn1 : 1 ≤ e.wires.length := by omega
    refine ⟨hok.hlen, hn1, hok.hhead, ?_, hok.hadj, hok.hwnd,
      hok.hmid, hok.hpre, ?_, hok.hdam hn1, hok.hsw, hchk⟩
    · intro c hc
      rw [hok.hlast] at hc
      rw [← Option.some_inj.mp hc]
      exact hce
    · intro c hc
      rw [hok.hlast] at hc
      rw [← Option.some_inj.mp hc]
      exact hok.hfin
  | step e e' p hncomp hmem h ih =>
    exact ih (EntryOK_step cs ws start ends hse e e' hncomp hok hmem)

/-- Every valid path is emitted by the DFS from the initial entry. -/
theorem valid_Reaches (cs : List Component) (ws : List Wire)
    (start : Component) (ends : List Component) (p : PathRec)
    (hv : ValidPathFrom cs ws start ends p) :
    Reaches cs ws start ends ⟨start, [start], []⟩ p := by
  have hlen := hv.hlen
  have hn := hv.hn
  have key : ∀ j, j ≤ p.wires.length → ∀ i, i + j = p.wires.length →
      ∀ c, p.components[i]? = some c →
      Reaches cs ws start ends
        ⟨c, p.components.take (i + 1), p.wires.take i⟩ p := by
    intro j
    induction j with
    | zero =>
      intro _ i hi c hc
      have hieq : i = p.wires.length := by omega
      subst hieq
      have hce : c ∈ ends := by
        apply hv.hlast
        rw [List.getLast?_eq_getElem?, hlen, Nat.add_sub_cancel]
        exact hc
      have htc : p.components.take (p.wires.length + 1) = p.components := by
        rw [← hlen]
        exact List.take_length _
      have htw : p.wires.take p.wires.length = p.wires :=
        List.take_length _
      rw [htc, htw]
      exact Reaches.done ⟨c, p.components, p.wires⟩
        ⟨hce, by rw [hlen]; omega⟩ hv.hchk
    | succ j ih =>
      intro hj i hi c hc
      have hiw : i < p.wires.length := by omega
      obtain ⟨a, w, b, ha, hw, hb, hwin, hoth⟩ := hv.hadj i hiw
      have hac : a = c := by
        rw [hc] at ha
        exact (Option.some_inj.mp ha).symm
      subst hac
      have hr := ih (by omega) (i + 1) (by omega) b hb
      have hc2 : p.components.take (i + 1 + 1) =
          p.components.take (i + 1) ++ [b] := by
        rw [List.take_succ, hb]
        rfl
      have hw2 : p.wires.take (i + 1) = p.wires.take i ++ [w] := by
        rw [List.take_succ, hw]
        rfl
      rw [hc2, hw2] at hr
      have hncomp : ¬ entryComplete ends
          ⟨a, p.components.take (i + 1), p.wires.take i⟩ := by
        intro hcomp
        obtain ⟨hae, hlt⟩ := hcomp
        have hlt2 : (p.components.take (i + 1)).length = i + 1 := by
          rw [List.length_take]
          omega
        simp only at hlt hae
        rw [hlt2] at hlt
        exact hv.hmid i a (by omega) hiw hc hae
      have hpush : (⟨b, p.components.take (i + 1) ++ [b],
          p.wires.take i ++ [w]⟩ : Entry) ∈ entryPushes cs ws start
          ⟨a, p.components.take (i + 1), p.wires.take i⟩ := by
        apply entryPushes_intro cs ws start
          ⟨a, p.components.take (i + 1), p.wires.take i⟩ b w hwin hoth
        · exact nodup_not_mem_take p.wires hv.hwnd i w hw
        · intro hbmem
          by_cases hin : i + 1 < p.wires.length
          · exfalso
            have hdl : p.components.dropLast =
                p.components.take p.wires.length := by
              rw [List.dropLast_eq_take, hlen, Nat.add_sub_cancel]
            have hdln : (p.components.take p.wires.length).Nodup := by
              rw [← hdl]
              exact hv.hpre
            have hbt : (p.components.take p.wires.length)[i + 1]? =
                some b := by
              rw [List.getElem?_take_of_lt hin]
              exact hb
            have hnm := nodup_not_mem_take _ hdln (i + 1) b hbt
            apply hnm
            rw [List.take_take, show min (i + 1) p.wires.length = i + 1
              from by omega]
            exact hbmem
          · have hi1 : i + 1 = p.wires.length := by omega
            have hbl : p.components.getLast? = some b := by
              rw [List.getLast?_eq_getElem?, hlen, Nat.add_sub_cancel,
                ← hi1]
              exact hb
            rcases hv.hfin b hbl with hl | ⟨hbs, hge⟩
            · exfalso
              apply hl
              rw [List.dropLast_eq_take, hlen, Nat.add_sub_cancel, ← hi1]
              exact hbmem
            · refine ⟨hbs, ?_⟩
              simp only
              rw [List.length_take]
              omega
        · exact hv.hsw (i + 1) b (by omega) hb
        · exact hv.hdam b (List.getElem?_mem hb)
        · exact hv.hdam a (List.getElem?_mem hc)
      exact Reaches.step _ _ _ hncomp hpush hr
  have h0 : p.components[0]? = some start := by
    rw [← List.head?_eq_getElem?]
    exact hv.hhead
  have hr := key p.wires.length le_rfl 0 (by omega) start h0
  have ht1 : p.components.take 1 = [start] := by
    rw [show (1 : Nat) = 0 + 1 from rfl, List.take_succ, h0]
    rfl
  rw [ht1, List.take_zero] at hr
  exact hr

/-- Reversing a valid loop path (one whose terminus is the source itself)
yields another valid path, provided component ids are duplicate-free, the
source is a collection member and terminus, and the source is not an open
switch. -/
theorem ValidPathFrom_reverse (cs : List Component) (ws : List Wire)
    (start : Component) (ends : List Component)
    (hnd : (cs.map (fun c => c.id)).Nodup)
    (hscs : start ∈ cs) (hsse : start ∈ ends)
    (hsw0 : ¬(start.ctype = CKind.switch ∧ start.closed = false))
    (p : PathRec) (hv : ValidPathFrom cs ws start ends p)
    (hls : ∀ c, p.components.getLast? = some c → c = start) :
    ValidPathFrom cs ws start ends
      ⟨p.components.reverse, p.wires.reverse⟩ := by
  have hlen := hv.hlen
  have hn := hv.hn
  have hn2 := valid_loop_two cs ws start ends p hv hls
  have hclen : p.components.length - 1 = p.wires.length := by
    omega
  have hlast : p.components.getLast? = some start := by
    cases hl : p.components[p.wires.length]? with
    | none =>
      have := List.getElem?_eq_none_iff.mp hl
      omega
    | some c =>
      have hlq : p.components.getLast? = some c := by
        rw [List.getLast?_eq_getElem?, hclen]
        exact hl
      rw [hlq, hls c hlq]
  have hrevc : ∀ i, i < p.components.length →
      p.components.reverse[i]? = p.components[p.wires.length - i]? := by
    intro i hi
    rw [List.getElem?_reverse hi, show p.components.length - 1 - i =
      p.wires.length - i from by omega]
  have hrevw : ∀ i, i < p.wires.length →
      p.wires.reverse[i]? = p.wires[p.wires.length - 1 - i]? := by
    intro i hi
    rw [List.getElem?_reverse hi]
  refine ⟨?_, ?_, ?_, ?_, ?_, ?_, ?_, ?_, ?_, ?_, ?_, ?_⟩
  · simp only [List.length_reverse]
    exact hlen
  · simp only [List.length_reverse]
    exact hn
  · simp only [List.head?_reverse]
    exact hlast
  · intro c hc
    simp only [List.getLast?_reverse] at hc
    rw [hv.hhead] at hc
    rw [← Option.some_inj.mp hc]
    exact hsse
  · intro i hi
    simp only [List.length_reverse] at hi
    obtain ⟨a, w, b, ha, hw, hb, hwin, hoth⟩ :=
      hv.hadj (p.wires.length - 1 - i) (by omega)
    have hacs : a ∈ cs :=
      valid_mem_cs cs ws start ends p hv hscs _ a ha
    have hbcs : b ∈ cs := getOtherComponent_mem cs w a b hoth
    have hane : a ≠ b := valid_consec_ne cs ws start ends p hv hls
      (p.wires.length - 1 - i) a b (by omega) ha hb
    have haid : a.id ≠ b.id := fun hid =>
      hane (List.inj_on_of_nodup_map hnd hacs hbcs hid)
    refine ⟨b, w, a, ?_, ?_, ?_, hwin,
      getOtherComponent_symm cs hnd w a b hacs haid hoth⟩
    · rw [hrevc i (by omega), show p.wires.length - i =
        p.wires.length - 1 - i + 1 from by omega]
      exact hb
    · rw [hrevw i (by omega)]
      exact hw
    · rw [hrevc (i + 1) (by omega), show p.wires.length - (i + 1) =
        p.wires.length - 1 - i from by omega]
      exact ha
  · exact List.nodup_reverse.mpr hv.hwnd
  · intro i c h1 hi hc
    simp only [List.length_reverse] at hi
    rw [hrevc i (by omega)] at hc
    exact hv.hmid (p.wires.length - i) c (by omega) (by omega) hc
  · have hdl : p.components.reverse.dropLast =
        p.components.reverse.take p.wires.length := by
      rw [List.dropLast_eq_take, List.length_reverse, hlen,
        Nat.add_sub_cancel]
    rw [hdl]
    have hdln : (p.components.take p.wires.length).Nodup := by
      rw [show p.components.take p.wires.length = p.components.dropLast
        from by rw [List.dropLast_eq_take, hlen, Nat.add_sub_cancel]]
      exact hv.hpre
    apply List.nodup_iff_getElem?_ne_getElem?.mpr
    intro i j hij hj heq
    rw [List.length_take, List.length_reverse] at hj
    have hjw : j < p.wires.length := by omega
    rw [List.getElem?_take_of_lt (by omega : i < p.wires.length),
      List.getElem?_take_of_lt hjw, hrevc i (by omega),
      hrevc j (by omega)] at heq
    by_cases hi0 : i = 0
    · subst hi0
      rw [Nat.sub_zero, show p.components[p.wires.length]? =
          p.components.getLast? from by
        rw [List.getLast?_eq_getElem?, hclen], hlast] at heq
      have h0t : (p.components.take p.wires.length)[0]? = some start := by
        rw [List.getElem?_take_of_lt (by omega), ← List.head?_eq_getElem?]
        exact hv.hhead
      have hjt : (p.components.take p.wires.length)[p.wires.length - j]? =
          some start := by
        rw [List.getElem?_take_of_lt (by omega)]
        exact heq.symm
      exact List.nodup_iff_getElem?_ne_getElem?.mp hdln 0
        (p.wires.length - j) (by omega) (by
          rw [List.length_take]
          omega) (h0t.trans hjt.symm)
    · have hit : (p.components.take p.wires.length)[p.wires.length - i]? =
          p.components[p.wires.length - i]? :=
        List.getElem?_take_of_lt (by omega)
      have hjt : (p.components.take p.wires.length)[p.wires.length - j]? =
          p.components[p.wires.length - j]? :=
        List.getElem?_take_of_lt (by omega)
      exact List.nodup_iff_getElem?_ne_getElem?.mp hdln
        (p.wires.length - j) (p.wires.length - i) (by omega) (by
          rw [List.length_take]
          omega) (hjt.trans (heq.symm.trans hit.symm))
  · intro c hc
    simp only [List.getLast?_reverse] at hc
    rw [hv.hhead] at hc
    refine Or.inr ⟨(Option.some_inj.mp hc).symm, ?_⟩
    simp only [List.length_reverse]
    exact hn2
  · intro c hc
    exact hv.hdam c (List.mem_reverse.mp hc)
  · intro i c h1 hc
    have hib : i < p.components.length := by
      have := (List.getElem?_eq_some_iff.mp hc).1
      simpa using this
    rw [hrevc i hib] at hc
    by_cases hin : i < p.wires.length
    · exact hv.hsw (p.wires.length - i) c (by omega) hc
    · have hieq : i = p.wires.length := by omega
      rw [hieq, Nat.sub_self, ← List.head?_eq_getElem?, hv.hhead] at hc
      rw [← Option.some_inj.mp hc]
      exact hsw0
  · show checkDiodeDirectionInPath p.components.reverse
      p.wires.reverse = false
    rw [checkDiode_reverse]
    exact hv.hchk

/-- The traversal record of the battery-resistor loop circuit as first
emitted by the DFS: battery, resistor, battery again, using wire 11 then
wire 10. -/
def loopPathRec : PathRec :=
  ⟨[mkComponent CKind.battery 1 0 0, mkComponent CKind.resistor 2 0 0,
    mkComponent CKind.battery 1 0 0],
   [{ id := 11, fromId := 2, fromTerm := "right",
      toId := 1, toTerm := "negative" },
    { id := 10, fromId := 1, fromTerm := "positive",
      toId := 2, toTerm := "left" }]⟩

/-- Claim C9 (amended): when no ground closes the circuit, a loop path from
a battery back to itself is returned together with its own reversal: for
any returned path whose last component equals its first, the record with
both the component sequence and the wire sequence reversed is also
returned, and differs from the original record, so each physical loop is
reported twice (once per traversal direction).  Stated under
duplicate-free component ids, the model of JS object identity. -/
theorem c9_loop_paths_doubled (cs : List Component) (ws : List Wire)
    (hnd : (cs.map (fun c => c.id)).Nodup) (p : PathRec)
    (hp : p ∈ findAllPaths cs ws)
    (hloop : p.components.getLast? = p.components.head?) :
    (⟨p.components.reverse, p.wires.reverse⟩ : PathRec) ∈ findAllPaths cs ws
      ∧ (⟨p.components.reverse, p.wires.reverse⟩ : PathRec) ≠ p := by
  obtain ⟨b, hb, hr⟩ := (mem_findAllPaths cs ws p).mp hp
  have hse : b ∈ endsFor cs b :=
    List.mem_append.mpr (Or.inr (List.mem_singleton.mpr rfl))
  have hv := Reaches_valid cs ws b (endsFor cs b) hse _ p hr
    (EntryOK_init cs ws b (endsFor cs b))
  have hls : ∀ c, p.components.getLast? = some c → c = b := by
    intro c hc
    rw [hloop, hv.hhead] at hc
    exact (Option.some_inj.mp hc).symm
  obtain ⟨hbcs, hbt⟩ := List.mem_filter.mp hb
  have hbt2 : b.ctype = CKind.battery := by
    simpa using hbt
  have hsw0 : ¬(b.ctype = CKind.switch ∧ b.closed = false) := by
    rw [hbt2]
    rintro ⟨hcon, _⟩
    exact absurd hcon (by decide)
  have hv' := ValidPathFrom_reverse cs ws b (endsFor cs b) hnd hbcs hse
    hsw0 p hv hls
  refine ⟨(mem_findAllPaths cs ws _).mpr
    ⟨b, hb, valid_Reaches cs ws b (endsFor cs b) _ hv'⟩, ?_⟩
  intro heq
  have hwrev : p.wires.reverse = p.wires := congrArg PathRec.wires heq
  have hn2 : 2 ≤ p.wires.length := valid_loop_two cs ws b (endsFor cs b)
    p hv hls
  obtain ⟨a, w, b2, ha0, hw0, hb0, _, _⟩ := hv.hadj 0 (by omega)
  have hrev0 := @List.getElem?_reverse _ p.wires 0 (by omega)
  rw [hwrev] at hrev0
  have hlast_w : p.wires[p.wires.length - 1]? = some w := by
    rw [show p.wires.length - 1 = p.wires.length - 1 - 0 from rfl, ← hrev0]
    exact hw0
  exact List.nodup_iff_getElem?_ne_getElem?.mp hv.hwnd 0
    (p.wires.length - 1) (by omega) (by omega) (hw0.trans hlast_w.symm)

/-- Witness for Claim C9's theorem on the battery-resistor loop circuit. -/
theorem c9_loop_paths_doubled_witness :
    ((loopState.components.map (fun c => c.id)).Nodup
      ∧ loopPathRec ∈ findAllPaths loopState.components loopState.wires
      ∧ loopPathRec.components.getLast? = loopPathRec.components.head?)
    ∧ ((⟨loopPathRec.components.reverse, loopPathRec.wires.reverse⟩ :
          PathRec) ∈ findAllPaths loopState.components loopState.wires
        ∧ (⟨loopPathRec.components.reverse, loopPathRec.wires.reverse⟩ :
          PathRec) ≠ loopPathRec) :=
  ⟨⟨by decide, by decide, by decide⟩,
   c9_loop_paths_doubled loopState.components loopState.wires (by decide)
     loopPathRec (by decide) (by decide)⟩

end CircuitSim
